import Mathlib

/-
Verification development for the r/hockey stats bot (statsbot.py).

The embedding models:
  * the redis-backed decision store and `check_db` (duplicate / rate-limit
    checks, in both its non-mutating admission form `update = false` and its
    mutating commit form `update = true`);
  * traces of admission / commit operations and the deliveries they trigger;
  * the comment-body pattern search, `parse_names`, and the identity-lookup
    query / match-key logic of `get_player_ids`;
  * the reply renderer `format_reply` (season-row collection loop, career row,
    missing-field defaults) and the person header line of `reply`;
  * the bounded admission queue, `filter_comments`, and the driver cycle.

Machine integers do not overflow here (redis counters are arbitrary-precision
ints in Python, modelled as Int); all definitions are executable.
-/

namespace StatsBot

/-- A reddit comment as `check_db` consumes it: `comment.submission.id`,
`comment.author.id`, `comment.id`, and the body text scanned by the regex. -/
structure Comment where
  submission : String
  author : String
  id : String
  body : String
deriving DecidableEq

/-- Constant `PER_THREAD_USER = 5` (statsbot.py line 18). -/
def PER_THREAD_USER : Int := 5

/-- Constant `PER_THREAD = 25` (statsbot.py line 19). -/
def PER_THREAD : Int := 25

/-- Constant `NHL_LEAGUE_ID = 133` (statsbot.py line 20). -/
def NHL_LEAGUE_ID : Int := 133

/-- Association-list field update, mirroring a redis hash-field write:
replaces the first binding of the key, or appends a fresh one. -/
def updAssoc {α : Type} (l : List (String × α)) (k : String) (v : α) : List (String × α) :=
  match l with
  | [] => [(k, v)]
  | (k0, v0) :: t => if k0 = k then (k, v) :: t else (k0, v0) :: updAssoc t k v

/-- The redis decision store.  `markers` holds the plain string keys written by
`redis.set(id_string, 1)` (always of the form `"id-" ++ comment.id`, so they
never collide with the hash keys, which are raw submission ids); `hashes` maps
a submission id to its hash of per-author counts plus the `"total"` field, as
written by `hmset` / `hincrby`. -/
structure Store where
  markers : List String
  hashes : List (String × List (String × Int))
deriving DecidableEq

/-- The store the bot starts from: redis contents are only ever written by
`check_db`, so every reachable state arises from this one. -/
def store0 : Store := ⟨[], []⟩

/-- Models `redis.hget(k, f)` (None when the key or field is absent). -/
def Store.hgetS (st : Store) (k f : String) : Option Int :=
  match st.hashes.lookup k with
  | none => none
  | some h => h.lookup f

/-- Models `redis.hmset(k, fields)`: sets each listed field, creating the hash if
absent and leaving unlisted fields alone. -/
def Store.hmsetS (st : Store) (k : String) (fields : List (String × Int)) : Store :=
  let h := (st.hashes.lookup k).getD []
  { st with hashes := updAssoc st.hashes k (fields.foldl (fun acc fv => updAssoc acc fv.1 fv.2) h) }

/-- Models `redis.hincrby(k, f)`: increments the field by 1, treating a missing hash
or field as 0. -/
def Store.hincrbyS (st : Store) (k f : String) : Store :=
  let h := (st.hashes.lookup k).getD []
  { st with hashes := updAssoc st.hashes k (updAssoc h f ((h.lookup f).getD 0 + 1)) }

/-- Rejection reasons.  `check_db` itself returns a bare `False`; the reason
labels which `return False` site fired, matching the log message at that site
("Already responded" / "Thread ... is spammed" / "User ... is spamming"). -/
inductive Reason
  | AlreadyHandled
  | ThreadSaturated
  | AuthorSaturated
deriving DecidableEq

/-- The verdict of `check_db`: `True` (continue processing) or a tagged `False`. -/
inductive Decision
  | Accept
  | Reject (r : Reason)
deriving DecidableEq

/-- Models `check_db(comment, update)` (statsbot.py lines 291-354), returning the
verdict together with the mutated store.  Faithful points: the idempotency
marker is written (when `update`) before the allow-list and cap checks; the
`hmset` creating a missing record runs in both modes and initializes the
author's count and `'total'` to 0 without incrementing; and the second
`hincrby` call passes the integer `total` itself as the field name
(`self.redis.hincrby(submission, total)`), so it increments the field named
`toString total`, not `'total'`.  In the `some total` branch the code reads
`int(self.redis.hget(submission, 'total'))`, which the branch guard makes
safe. -/
def check_db (st : Store) (c : Comment) (update : Bool) : Decision × Store :=
  let idString := "id-" ++ c.id
  if idString ∈ st.markers then
    (Decision.Reject Reason.AlreadyHandled, st)
  else
    let st1 := if update then { st with markers := idString :: st.markers } else st
    if c.author = "fhdgl" then
      (Decision.Accept, st1)
    else
      match st1.hgetS c.submission "total" with
      | none => (Decision.Accept, st1.hmsetS c.submission [(c.author, 0), ("total", 0)])
      | some total =>
        let userCount := (st1.hgetS c.submission c.author).getD 0
        if PER_THREAD ≤ total then (Decision.Reject Reason.ThreadSaturated, st1)
        else if PER_THREAD_USER ≤ userCount then (Decision.Reject Reason.AuthorSaturated, st1)
        else if update then
          (Decision.Accept, (st1.hincrbyS c.submission c.author).hincrbyS c.submission (toString total))
        else (Decision.Accept, st1)

/-- One store interaction of a candidate's pipeline: the non-mutating
admission check run by `filter_comments` (`check_db(comment)`), or the
mutating commit check run by `reply` (`check_db(comment, update=True)`). -/
inductive Op
  | check (c : Comment)
  | commit (c : Comment)
deriving DecidableEq

/-- Applies one operation to the store. -/
def applyOp (st : Store) : Op → Decision × Store
  | Op.check c => check_db st c false
  | Op.commit c => check_db st c true

/-- Runs a sequence of operations, returning the final store and the list of
operations paired with the decision each received.  `check_db` never awaits,
so each operation is a single indivisible step of the event loop. -/
def traceRun (st : Store) : List Op → Store × List (Op × Decision)
  | [] => (st, [])
  | o :: rest =>
    let r := applyOp st o
    let t := traceRun r.2 rest
    (t.1, (o, r.1) :: t.2)

/-- The comment ids for which `comment.reply(reply_msg)` fires along a trace:
`reply` delivers exactly when its commit check returns `True`. -/
def deliveredIds (st : Store) (ops : List Op) : List String :=
  (traceRun st ops).2.filterMap fun p =>
    match p with
    | (Op.commit c, Decision.Accept) => some c.id
    | _ => none

/-- Does this trace event record an accepted commit for the given
(submission, author) pair? -/
def isAcceptedFor (sub a : String) : Op × Decision → Bool
  | (Op.commit c, Decision.Accept) => c.submission == sub && c.author == a
  | _ => false

/-- Number of accepted commits for a (submission, author) pair along a run. -/
def acceptedForRun (st : Store) (ops : List Op) (sub a : String) : Nat :=
  ((traceRun st ops).2.filter (isAcceptedFor sub a)).length

/-- Number of accepted commits for a submission by non-allow-listed authors. -/
def acceptedForSub (st : Store) (ops : List Op) (sub : String) : Nat :=
  ((traceRun st ops).2.filter fun p =>
    match p with
    | (Op.commit c, Decision.Accept) => c.submission == sub && c.author != "fhdgl"
    | _ => false).length

/-- The author a store operation is about. -/
def opAuthor : Op → String
  | Op.check c => c.author
  | Op.commit c => c.author

/-- Pipeline call order: in the program every commit (`reply`, line 287) is
for a comment that `filter_comments` previously ran the admission check on
(line 98) before enqueueing it.  `PO seen ops` says every commit in `ops` is
of a comment checked earlier in the trace (or in the accumulated `seen`). -/
def PO : List Comment → List Op → Prop
  | _, [] => True
  | seen, Op.check c :: r => PO (c :: seen) r
  | seen, Op.commit c :: r => c ∈ seen ∧ PO seen r

instance instDecidablePO : (seen : List Comment) → (ops : List Op) → Decidable (PO seen ops)
  | _, [] => Decidable.isTrue trivial
  | seen, Op.check c :: r => instDecidablePO (c :: seen) r
  | seen, Op.commit c :: r => @instDecidableAnd _ _ inferInstance (instDecidablePO seen r)

/- ----------------------------------------------------------------- -/
/- Name parsing and identity lookup                                   -/
/- ----------------------------------------------------------------- -/

/-- The apostrophe character, kept out of string literals. -/
def aposC : Char := Char.ofNat 39

/-- The apostrophe as a one-character string. -/
def aposS : String := String.mk [aposC]

/-- Characters admitted inside the bracketed span: the regex's character
class is the complement of left and right square brackets. -/
def notBracket (ch : Char) : Bool := !(ch == '[') && !(ch == ']')

/-- Tries to match the regex `\[\[([^\[\]]*)\]\]` anchored at the head of the
character list, returning the whole match (Python's `group(0)`).  The starred
class is greedy, and since it excludes both brackets no shorter match can
succeed at the same start, so maximal-munch followed by a literal `]]` test is
exact. -/
def matchAt : List Char → Option (List Char)
  | '[' :: '[' :: rest =>
    let span := rest.takeWhile notBracket
    (match rest.drop span.length with
     | ']' :: ']' :: _ => some ('[' :: '[' :: (span ++ [']', ']']))
     | _ => none)
  | _ => none

/-- Models `re.search`: tries the match at each start position, leftmost first. -/
def searchChars : List Char → Option (List Char)
  | [] => none
  | ch :: rest =>
    match matchAt (ch :: rest) with
    | some m => some m
    | none => searchChars rest

/-- Models `_regex_summon` (statsbot.py line 86): the first `[[...]]` span of the
body, as the full matched text, or `none` when the pattern is absent. -/
def regex_summon (body : String) : Option String :=
  (searchChars body.toList).map String.mk

/-- Python's `str.replace(old, "")` — remove every occurrence of `old`,
scanning left to right, non-overlapping.  Structural recursion on a fuel
bounded by the text length (each step consumes at least one character when
`old` is non-empty, as at every call site). -/
def removeGo (old : List Char) : Nat → List Char → List Char
  | 0, l => l
  | _ + 1, [] => []
  | fuel + 1, c :: t =>
    if old ≠ [] ∧ old.isPrefixOf (c :: t) then removeGo old fuel ((c :: t).drop old.length)
    else c :: removeGo old fuel t

/-- Python's `s.replace(old, "")` at the string level. -/
def pyRemove (s old : String) : String :=
  String.mk (removeGo old.toList s.toList.length s.toList)

/-- Python's `s.split(sep)` for a one-character separator: splits at every
occurrence, keeping empty fields, and always returns at least one field. -/
def splitChar (sep : Char) : List Char → List (List Char)
  | [] => [[]]
  | c :: t =>
    if c = sep then [] :: splitChar sep t
    else
      match splitChar sep t with
      | [] => [[c]]
      | h :: r => (c :: h) :: r

/-- Models `parse_names` (statsbot.py lines 118-127): strips the delimiters from
`group(0)`, splits on single spaces (Python's `split(' ')`, empty fields
kept), lower-cases the first field, and joins the remaining fields,
lower-cased with periods and hyphens removed — apostrophes retained.
(Lower-casing is ASCII `Char.toLower`, like the names the bot handles.) -/
def parse_names (g0 : String) : String × String :=
  let fullName := pyRemove (pyRemove g0 "[[") "]]"
  let parts := splitChar ' ' fullName.toList
  let firstName := String.mk ((parts.headD []).map Char.toLower)
  let lastName :=
    pyRemove (pyRemove (String.mk (((parts.drop 1).flatten).map Char.toLower)) ".") "-"
  (firstName, lastName)

/-- Prefix of `SUGGEST_API_PATH` (statsbot.py line 16). -/
def suggestBase : String := "https://suggest.svc.nhl.com/svc/suggest/v1/minplayers/"

/-- The path `SUGGEST_API_PATH.format(query)`. -/
def suggestPathFor (query : String) : String := suggestBase ++ query ++ "/300"

/-- The URL `get_player_ids` actually requests (statsbot.py line 148):
`SUGGEST_API_PATH.format(comment["last_name"])` — the last-name token is used
verbatim; only the log line on line 146-147 strips the apostrophe. -/
def suggestQuery (lastName : String) : String := suggestPathFor lastName

/-- The compound key scanned for among suggestions (statsbot.py lines
153-155): `"{}-{}".format(first_name, last_name.replace("'", ""))`. -/
def matchKey (firstName lastName : String) : String :=
  firstName ++ "-" ++ (pyRemove lastName aposS)

/-- Models `player.split("|")[0]` (statsbot.py line 159): the text before the first
bar. -/
def barHead (pl : String) : String := String.mk ((splitChar '|' pl.toList).headD [])

/-- Python's `needle in haystack` substring test. -/
def containsSub (needle hay : String) : Bool :=
  subInfix needle.toList hay.toList
where
  subInfix (needle : List Char) : List Char → Bool
    | [] => needle.isEmpty
    | c :: t => List.isPrefixOf needle (c :: t) || subInfix needle t

/-- The suggestion-selection loop of `get_player_ids` (statsbot.py lines
152-159): the first suggestion string containing the compound key wins, and
the subject id is the text before the first `|`. -/
def get_player_ids (firstName lastName : String) (suggestions : List String) : Option String :=
  (suggestions.find? (fun pl => containsSub (matchKey firstName lastName) pl)).map
    (fun pl => barHead pl)

/-- Full front half of the pipeline for one body: pattern search, then
`parse_names` on `group(0)`. -/
def parseOfBody (body : String) : Option (String × String) :=
  (regex_summon body).map parse_names

/-- The suggestion-service URL requested for a body, when the pattern
matches. -/
def suggestQueryOfBody (body : String) : Option String :=
  (parseOfBody body).map (fun fl => suggestQuery fl.2)

/- ----------------------------------------------------------------- -/
/- Reply renderer                                                     -/
/- ----------------------------------------------------------------- -/

/-- One season's (or the career's) `stat` block; each leaf is optional, the
renderer substituting defaults via `.get`.  Values are kept as the strings
they are interpolated as. -/
structure StatBlock where
  goals : Option String
  assists : Option String
  points : Option String
  pim : Option String
  faceOffPct : Option String
  games : Option String
  savePercentage : Option String
  goalAgainstAverage : Option String
  shutouts : Option String
  wins : Option String
deriving DecidableEq

/-- A season entry's `team` object. -/
structure TeamRef where
  abbreviation : Option String
  officialSiteUrl : Option String
deriving DecidableEq

/-- A season entry's `league` object; `id` is absent when `"id" not in
season["league"]`. -/
structure LeagueRef where
  id : Option Int
deriving DecidableEq

/-- One entry of the year-by-year `splits` series.  `team` and `stat` are
optional: `season['stat']` and `season['team']` are indexed directly inside
the row `try`, so their absence raises and skips the row.  (`season['league']`
is indexed outside any `try`; the code assumes it present, as modelled.) -/
structure SeasonEntry where
  league : LeagueRef
  team : Option TeamRef
  season : Option String
  stat : Option StatBlock
deriving DecidableEq

/-- One split of the career-aggregate stats. -/
structure CareerSplit where
  stat : Option StatBlock
deriving DecidableEq

/-- The career-aggregate stats object (`career_stats["splits"]`). -/
structure CareerStats where
  splits : List CareerSplit
deriving DecidableEq

/-- The named fields a row template interpolates. -/
structure RowFields where
  abbreviation : String
  officialSiteUrl : String
  season : String
  goals : String
  assists : String
  points : String
  pim : String
  faceOffPct : String
  games : String
  savePercentage : String
  goalAgainstAverage : String
  shutouts : String
  wins : String

/-- Models `sstats.get(field, ' ')`: a missing stat leaf becomes one blank. -/
def blankStat (s : Option String) : String := s.getD " "

/-- The keyword arguments of the row `format` call (statsbot.py lines
205-232): stat leaves and `season` default to a blank, but the team fields
default to `'NHL'` and `'http://nhl.com'`. -/
def rowFieldsOfSeason (e : SeasonEntry) (t : TeamRef) (s : StatBlock) : RowFields :=
  { abbreviation := t.abbreviation.getD "NHL"
  , officialSiteUrl := t.officialSiteUrl.getD "http://nhl.com"
  , season := e.season.getD " "
  , goals := blankStat s.goals
  , assists := blankStat s.assists
  , points := blankStat s.points
  , pim := blankStat s.pim
  , faceOffPct := blankStat s.faceOffPct
  , games := blankStat s.games
  , savePercentage := blankStat s.savePercentage
  , goalAgainstAverage := blankStat s.goalAgainstAverage
  , shutouts := blankStat s.shutouts
  , wins := blankStat s.wins }

/-- The row body guarded by `try` (statsbot.py lines 203-232): `season['stat']`
is read first, then `season['team']` inside the format call; a missing block
raises, the exception is logged and the row is dropped (`none`).  All other
field accesses use `.get` and cannot raise. -/
def tryFormatRow (fmt : RowFields → String) (e : SeasonEntry) : Option String :=
  match e.stat with
  | none => none
  | some s =>
    match e.team with
    | none => none
    | some t => some (fmt (rowFieldsOfSeason e t s))

/-- The league filter (statsbot.py line 201): an entry is skipped unless its
league has an `id` equal to `NHL_LEAGUE_ID`. -/
def qualifiesNHL (e : SeasonEntry) : Bool :=
  match e.league.id with
  | none => false
  | some i => i == NHL_LEAGUE_ID

/-- The season loop of `format_reply` (statsbot.py lines 198-235), already
applied to the reversed series.  The counter check `counter == 5` sits at the
top of each iteration; non-qualifying entries `continue` without touching the
counter; qualifying entries increment it afterwards whether or not the `try`
body succeeded. -/
def collectLoop (fmt : RowFields → String) : List SeasonEntry → Nat → List String → List String
  | [], _, acc => acc
  | e :: rest, counter, acc =>
    if counter == 5 then acc
    else if qualifiesNHL e = false then collectLoop fmt rest counter acc
    else
      match tryFormatRow fmt e with
      | some r => collectLoop fmt rest (counter + 1) (acc ++ [r])
      | none => collectLoop fmt rest (counter + 1) acc

/-- The career-row `try` (statsbot.py lines 238-267): `splits[0]` and its
`stat` are indexed directly, so an empty `splits` or missing `stat` raises and
the career row is omitted; the row is rendered with team fixed to NHL and
season label `Career`. -/
def careerRow (fmt : RowFields → String) (cs : CareerStats) : Option String :=
  match cs.splits with
  | [] => none
  | sp :: _ =>
    match sp.stat with
    | none => none
    | some cst =>
      some (fmt
        { abbreviation := "NHL"
        , officialSiteUrl := "http://nhl.com"
        , season := "Career"
        , goals := blankStat cst.goals
        , assists := blankStat cst.assists
        , points := blankStat cst.points
        , pim := blankStat cst.pim
        , faceOffPct := blankStat cst.faceOffPct
        , games := blankStat cst.games
        , savePercentage := blankStat cst.savePercentage
        , goalAgainstAverage := blankStat cst.goalAgainstAverage
        , shutouts := blankStat cst.shutouts
        , wins := blankStat cst.wins })

/-- The hover marker prepended to every reply (statsbot.py line 193). -/
def hoverConst : String := "#####&#009;\n\n######&#009;\n\n####&#009;  \n"

/-- Models `format_reply` (statsbot.py lines 190-268): hover marker, header, the
collected rows emitted in reverse (`reply_list[::-1]`), then the career row
when its `try` succeeds.  The season series is scanned as
`season_stats[::-1]`, i.e. most recent entry first. -/
def format_reply (seasonStats : List SeasonEntry) (careerStats : CareerStats)
    (header : String) (fmt : RowFields → String) : String :=
  let replyList := collectLoop fmt seasonStats.reverse 0 []
  let base := hoverConst ++ header ++ String.join replyList.reverse
  match careerRow fmt careerStats with
  | some cr => base ++ cr
  | none => base

/-- Template `reply_skater_record` (statsbot.py line 27) as a function of the fields. -/
def renderSkaterRecord (r : RowFields) : String :=
  "[" ++ r.abbreviation ++ "](" ++ r.officialSiteUrl ++ ")|" ++ r.season ++ "|" ++
    r.goals ++ "|" ++ r.assists ++ "|" ++ r.points ++ "|" ++ r.pim ++ "|" ++
    r.faceOffPct ++ "%|" ++ r.games ++ "    \n"

/-- Template `reply_goalie_record` (statsbot.py line 29) as a function of the fields. -/
def renderGoalieRecord (r : RowFields) : String :=
  "[" ++ r.abbreviation ++ "](" ++ r.officialSiteUrl ++ ")|" ++ r.season ++ "|" ++
    r.savePercentage ++ "|" ++ r.goalAgainstAverage ++ "|" ++ r.shutouts ++ "|" ++
    r.wins ++ "|" ++ r.games ++ "    \n"

/-- Template `reply_skater_header` (statsbot.py line 26). -/
def skaterHeader : String :=
  "Team|Season|Goals|Assists|Points|PIM|FO%|Games Played    \n--:|--:|--:|--:|--:|--:|--:|--:  \n"

/-- Template `reply_goalie_header` (statsbot.py line 28). -/
def goalieHeader : String :=
  "Team|Season|Save %|GAA|Shutouts|Wins|Games Played    \n--:|--:|--:|--:|--:|--:|--:  \n"

/-- The subject-record fields `reply` reads from `people[0]`.
`primaryPosition.code` is indexed directly on line 279 (required); the header
line's fields go through `.get` with the listed defaults. -/
structure PersonRecord where
  fullName : Option String
  positionName : Option String
  positionCode : String
  primaryNumber : Option String
  currentTeamName : Option String
  seasonStats : List SeasonEntry
  careerStats : CareerStats

/-- The `reply_person` header line (statsbot.py lines 25, 273-278): full name,
position name and number default to a blank, but a missing current team (or a
current team without a name) renders as `N/A`. -/
def reply_person_line (p : PersonRecord) : String :=
  p.fullName.getD " " ++ " - " ++ p.positionName.getD " " ++ " - " ++
    p.primaryNumber.getD " " ++ " - " ++ p.currentTeamName.getD "N/A" ++ "  \n"

/-- The footer appended to every reply (statsbot.py line 284). -/
def footerText : String := "^^^issues? ^^^contact ^^^/u/pacefalmd"

/-- The full rendered reply text (statsbot.py lines 273-284): header line, the
skater or goalie table chosen by `primaryPosition.code == "G"`, then the
footer. -/
def replyMessage (p : PersonRecord) : String :=
  reply_person_line p ++
    (if p.positionCode == "G" then
      format_reply p.seasonStats p.careerStats goalieHeader renderGoalieRecord
    else
      format_reply p.seasonStats p.careerStats skaterHeader renderSkaterRecord) ++
    "\n\n" ++ footerText

/- ----------------------------------------------------------------- -/
/- Admission queue and driver cycle                                   -/
/- ----------------------------------------------------------------- -/

/-- The capacity from `Queue(maxsize=1024)` (statsbot.py line 54). -/
def QUEUE_MAXSIZE : Nat := 1024

/-- Models `Queue.put_nowait`: appends when `qsize() < maxsize`, otherwise raises
`QueueFull` immediately (it never blocks); `none` models the raise. -/
def put_nowait (q : List Comment) (c : Comment) : Option (List Comment) :=
  if QUEUE_MAXSIZE ≤ q.length then none else some (q ++ [c])

/-- Outcome of one `filter_comments` call: the store and queue as left behind,
and whether an exception escaped the (try-less) comment loop. -/
structure FCResult where
  store : Store
  queue : List Comment
  raised : Bool
deriving DecidableEq

/-- Models `filter_comments` (statsbot.py lines 88-102) over a fetched comment batch:
each comment matching the summon pattern and passing the non-mutating
admission check is enqueued with `put_nowait`.  There is no `try` around the
loop, so a `QueueFull` raise abandons the rest of the batch and propagates. -/
def filter_comments (st : Store) (q : List Comment) : List Comment → FCResult
  | [] => ⟨st, q, false⟩
  | c :: rest =>
    if (regex_summon c.body).isSome then
      match check_db st c false with
      | (Decision.Accept, st1) =>
        (match put_nowait q c with
         | none => ⟨st1, q, true⟩
         | some q1 => filter_comments st1 q1 rest)
      | (_, st1) => filter_comments st1 q rest
    else filter_comments st q rest

/-- The admission half of `main` (statsbot.py lines 356-365): the cycle body
is wrapped in `try/except Exception`, which logs and falls through, so the
driver always continues to the next cycle with whatever store and queue state
the raise left behind. -/
def mainCycle (st : Store) (q : List Comment) (comments : List Comment) : Store × List Comment :=
  let r := filter_comments st q comments
  (r.store, r.queue)

/- ----------------------------------------------------------------- -/
/- Predicates used to state store invariants                          -/
/- ----------------------------------------------------------------- -/

/-- The marked store after line 326's `redis.set`, in commit mode. -/
def markSt (st : Store) (c : Comment) : Store :=
  { st with markers := ("id-" ++ c.id) :: st.markers }


/-- The per-author counter `check_db` reads: `hget(submission, user)`, with a
missing field read as 0. -/
def authCount (st : Store) (sub a : String) : Int := (st.hgetS sub a).getD 0

/-- A Decision Record exists for the submission (the `hexists(submission,
'total')` test of line 333). -/
def recordP (st : Store) (sub : String) : Prop := (st.hgetS sub "total").isSome = true

/-- After a candidate's admission check, either its submission's record
exists or the comment's idempotency marker is set — the disjunction preserved
until its commit. -/
def RoM (st : Store) (c : Comment) : Prop :=
  recordP st c.submission ∨ ("id-" ++ c.id) ∈ st.markers

/-- Store well-formedness maintained by `check_db` from the empty store:
every hash carries a `"total"` field and all counters are non-negative. -/
def StoreWF (st : Store) : Prop :=
  ∀ s h, st.hashes.lookup s = some h →
    (∃ v, h.lookup "total" = some v) ∧ (∀ f v, h.lookup f = some v → 0 ≤ v)

/-- Every `"total"` field is 0: the consequence of line 352 passing the
integer `total` instead of the string `'total'` as the `hincrby` field. -/
def TotalsZero (st : Store) : Prop := ∀ s v, st.hgetS s "total" = some v → v = 0

/- ----------------------------------------------------------------- -/
/- Concrete inputs used by witnesses and counterexamples              -/
/- ----------------------------------------------------------------- -/

/-- A summoning comment used in concrete scenarios. -/
def exC : Comment := ⟨"s1", "alice", "c1", "[[Rod Smith]]"⟩

/-- A store whose record for `s1` already has `alice` at the per-author cap. -/
def stC4 : Store := ⟨[], [("s1", [("alice", 5), ("total", 0)])]⟩

/-- A fresh comment by `alice` on the saturated submission `s1`. -/
def cC4 : Comment := ⟨"s1", "alice", "c9", ""⟩

/-- The spec's parsing example body. -/
def bodyBA : String := "x [[Rod Brind" ++ aposS ++ "Amour]] y"

/-- The last-name token `parse_names` produces for the example body. -/
def lastBA : String := "brind" ++ aposS ++ "amour"

/-- The j-th comment of author `a<i>` on submission `s2`. -/
def c2Comment (i j : Nat) : Comment := ⟨"s2", "a" ++ toString i, "k" ++ toString i ++ "x" ++ toString j, ""⟩

/-- Six authors admit and commit five comments each on submission `s2`:
a well-ordered pipeline trace of 30 candidates. -/
def c2Trace : List Op :=
  ((List.range 6).map (fun i =>
    ((List.range 5).map (fun j => [Op.check (c2Comment i j), Op.commit (c2Comment i j)])).flatten)).flatten

/-- The j-th comment of author `bob` on submission `s3`. -/
def c3Comment (j : Nat) : Comment := ⟨"s3", "bob", "m" ++ toString j, ""⟩

/-- Author `bob` admits and commits five comments on submission `s3`. -/
def c3Trace : List Op :=
  ((List.range 5).map (fun j => [Op.check (c3Comment j), Op.commit (c3Comment j)])).flatten

/-- A sixth, still unmarked comment by `bob` on `s3`. -/
def c3Fresh : Comment := ⟨"s3", "bob", "m9", ""⟩

/-- A team block with every field present. -/
def t0 : TeamRef := ⟨some "CAR", some "http://nhl.com"⟩

/-- A stat block with every field present. -/
def sb0 : StatBlock :=
  ⟨some "5", some "7", some "12", some "0", some "50.0", some "82",
   some "0.91", some "2.5", some "3", some "30"⟩

/-- A well-formed NHL season entry. -/
def nhlSeason (yr : String) : SeasonEntry := ⟨⟨some 133⟩, some t0, some yr, some sb0⟩

/-- A season entry from a different league. -/
def otherSeason (yr : String) : SeasonEntry := ⟨⟨some 153⟩, some t0, some yr, some sb0⟩

/-- An NHL season entry whose `stat` block is missing, so its row raises. -/
def brokenNhlSeason (yr : String) : SeasonEntry := ⟨⟨some 133⟩, some t0, some yr, none⟩

/-- Ten season entries, oldest first, of which six are NHL entries. -/
def ex10 : List SeasonEntry :=
  [nhlSeason "2010", otherSeason "2011", nhlSeason "2012", nhlSeason "2013",
   otherSeason "2014", nhlSeason "2015", otherSeason "2016", nhlSeason "2017",
   otherSeason "2018", nhlSeason "2019"]

/-- A career-stats object whose first split is well-formed. -/
def exCareer : CareerStats := ⟨[⟨some sb0⟩]⟩

/-- Six NHL entries, oldest first, the most recent one broken. -/
def ex6 : List SeasonEntry :=
  [nhlSeason "2010", nhlSeason "2011", nhlSeason "2012", nhlSeason "2013",
   nhlSeason "2014", brokenNhlSeason "2015"]

/-- A team block with the abbreviation missing. -/
def tNoAbbr : TeamRef := ⟨none, some "http://x"⟩

/-- A season entry whose team lacks an abbreviation. -/
def eNoAbbr : SeasonEntry := ⟨⟨some 133⟩, some tNoAbbr, some "2019", some sb0⟩

/-- A filler comment occupying the queue. -/
def dummyC : Comment := ⟨"sd", "dave", "cd", ""⟩

/-- A queue at its capacity of 1024. -/
def qFull : List Comment := List.replicate 1024 dummyC

/-- A further eligible candidate: summon pattern present, admission passes. -/
def eligC : Comment := ⟨"s8", "erin", "c8", "[[Jo Jo]]"⟩

/- ----------------------------------------------------------------- -/
/- Store lemmas                                                       -/
/- ----------------------------------------------------------------- -/

lemma lookup_updAssoc {α : Type} (l : List (String × α)) (k : String) (v : α) (k' : String) :
    (updAssoc l k v).lookup k' = if k' = k then some v else l.lookup k' := by
  induction l with
  | nil =>
    by_cases h : k' = k
    · subst h
      simp [updAssoc, List.lookup]
    · have hb : (k' == k) = false := by simp [h]
      simp [updAssoc, List.lookup, hb, h]
  | cons hd t ih =>
    obtain ⟨k0, v0⟩ := hd
    by_cases h0 : k0 = k
    · subst h0
      by_cases h : k' = k0
      · subst h
        simp [updAssoc, List.lookup]
      · have hb : (k' == k0) = false := by simp [h]
        simp [updAssoc, List.lookup, hb, h]
    · by_cases h : k' = k0
      · have hne : ¬ k' = k := by rw [h]; exact h0
        have hb : (k' == k0) = true := by simp [h]
        simp [updAssoc, h0, List.lookup, hb, hne]
      · have hb : (k' == k0) = false := by simp [h]
        simp [updAssoc, h0, List.lookup, hb, ih]

lemma markers_hincrbyS (st : Store) (k f : String) : (st.hincrbyS k f).markers = st.markers := rfl

lemma markers_hmsetS (st : Store) (k : String) (fs : List (String × Int)) :
    (st.hmsetS k fs).markers = st.markers := rfl

lemma getD_lookup (st : Store) (k f : String) :
    ((st.hashes.lookup k).getD []).lookup f = st.hgetS k f := by
  unfold Store.hgetS
  cases st.hashes.lookup k <;> simp

lemma hgetS_hincrbyS (st : Store) (k f k' f' : String) :
    (st.hincrbyS k f).hgetS k' f' =
      if k' = k then
        (if f' = f then some ((st.hgetS k f).getD 0 + 1) else st.hgetS k f')
      else st.hgetS k' f' := by
  by_cases hk : k' = k
  · subst hk
    by_cases hf : f' = f
    · subst hf
      simp [Store.hincrbyS, Store.hgetS, lookup_updAssoc, getD_lookup]
    · simp [Store.hincrbyS, Store.hgetS, lookup_updAssoc, getD_lookup, hf]
  · simp [Store.hincrbyS, Store.hgetS, lookup_updAssoc, hk]

lemma hgetS_hmset2 (st : Store) (k a k' f' : String) :
    (st.hmsetS k [(a, 0), ("total", 0)]).hgetS k' f' =
      if k' = k then
        (if f' = "total" then some 0
         else if f' = a then some 0
         else st.hgetS k f')
      else st.hgetS k' f' := by
  by_cases hk : k' = k
  · subst hk
    by_cases ht : f' = "total"
    · simp [Store.hmsetS, Store.hgetS, lookup_updAssoc, getD_lookup, ht]
    · by_cases ha : f' = a <;>
        simp [Store.hmsetS, Store.hgetS, lookup_updAssoc, getD_lookup, ht, ha]
  · simp [Store.hmsetS, Store.hgetS, lookup_updAssoc, hk]

lemma hashes_lookup_hincrbyS (st : Store) (k f s : String) (h : s ≠ k) :
    (st.hincrbyS k f).hashes.lookup s = st.hashes.lookup s := by
  simp [Store.hincrbyS, lookup_updAssoc, h]

lemma hashes_lookup_hmsetS (st : Store) (k : String) (fs : List (String × Int)) (s : String)
    (h : s ≠ k) : (st.hmsetS k fs).hashes.lookup s = st.hashes.lookup s := by
  simp [Store.hmsetS, lookup_updAssoc, h]

/- ----------------------------------------------------------------- -/
/- `check_db` branch lemmas                                           -/
/- ----------------------------------------------------------------- -/

lemma markSt_hashes (st : Store) (c : Comment) : (markSt st c).hashes = st.hashes := rfl

lemma hgetS_set_markers (st : Store) (m : List String) (k f : String) :
    (Store.mk m st.hashes).hgetS k f = st.hgetS k f := rfl

lemma cdb_marked (st : Store) (c : Comment) (u : Bool) (hm : ("id-" ++ c.id) ∈ st.markers) :
    check_db st c u = (Decision.Reject Reason.AlreadyHandled, st) := by
  simp [check_db, hm]

lemma cdb_fhdgl (st : Store) (c : Comment) (u : Bool) (hm : ("id-" ++ c.id) ∉ st.markers)
    (ha : c.author = "fhdgl") :
    check_db st c u = (Decision.Accept, if u then markSt st c else st) := by
  cases u <;> simp [check_db, hm, ha, markSt]

lemma cdb_create (st : Store) (c : Comment) (u : Bool) (hm : ("id-" ++ c.id) ∉ st.markers)
    (ha : c.author ≠ "fhdgl") (hT : st.hgetS c.submission "total" = none) :
    check_db st c u =
      (Decision.Accept,
        (if u then markSt st c else st).hmsetS c.submission [(c.author, 0), ("total", 0)]) := by
  cases u <;> simp [check_db, hm, ha, hgetS_set_markers, hT, markSt]

lemma cdb_thread (st : Store) (c : Comment) (u : Bool) (tv : Int)
    (hm : ("id-" ++ c.id) ∉ st.markers) (ha : c.author ≠ "fhdgl")
    (hT : st.hgetS c.submission "total" = some tv) (h25 : PER_THREAD ≤ tv) :
    check_db st c u = (Decision.Reject Reason.ThreadSaturated, if u then markSt st c else st) := by
  cases u <;> simp [check_db, hm, ha, hgetS_set_markers, hT, h25, markSt]

lemma cdb_author (st : Store) (c : Comment) (u : Bool) (tv : Int)
    (hm : ("id-" ++ c.id) ∉ st.markers) (ha : c.author ≠ "fhdgl")
    (hT : st.hgetS c.submission "total" = some tv) (h25 : ¬ PER_THREAD ≤ tv)
    (h5 : PER_THREAD_USER ≤ authCount st c.submission c.author) :
    check_db st c u = (Decision.Reject Reason.AuthorSaturated, if u then markSt st c else st) := by
  unfold authCount at h5
  cases u <;> simp [check_db, hm, ha, hgetS_set_markers, hT, h25, h5, markSt]

lemma cdb_pass_check (st : Store) (c : Comment) (tv : Int)
    (hm : ("id-" ++ c.id) ∉ st.markers) (ha : c.author ≠ "fhdgl")
    (hT : st.hgetS c.submission "total" = some tv) (h25 : ¬ PER_THREAD ≤ tv)
    (h5 : ¬ PER_THREAD_USER ≤ authCount st c.submission c.author) :
    check_db st c false = (Decision.Accept, st) := by
  unfold authCount at h5
  simp [check_db, hm, ha, hgetS_set_markers, hT, h25, h5]

lemma cdb_pass_commit (st : Store) (c : Comment) (tv : Int)
    (hm : ("id-" ++ c.id) ∉ st.markers) (ha : c.author ≠ "fhdgl")
    (hT : st.hgetS c.submission "total" = some tv) (h25 : ¬ PER_THREAD ≤ tv)
    (h5 : ¬ PER_THREAD_USER ≤ authCount st c.submission c.author) :
    check_db st c true =
      (Decision.Accept,
        ((markSt st c).hincrbyS c.submission c.author).hincrbyS c.submission (toString tv)) := by
  unfold authCount at h5
  simp [check_db, hm, ha, hgetS_set_markers, hT, h25, h5, markSt]

/-- Exhaustive description of the commit check (`update = True`). -/
lemma cdb_commit_cases (st : Store) (c : Comment) :
    (("id-" ++ c.id) ∈ st.markers ∧
      check_db st c true = (Decision.Reject Reason.AlreadyHandled, st)) ∨
    (("id-" ++ c.id) ∉ st.markers ∧ c.author = "fhdgl" ∧
      check_db st c true = (Decision.Accept, markSt st c)) ∨
    (("id-" ++ c.id) ∉ st.markers ∧ c.author ≠ "fhdgl" ∧
      st.hgetS c.submission "total" = none ∧
      check_db st c true =
        (Decision.Accept, (markSt st c).hmsetS c.submission [(c.author, 0), ("total", 0)])) ∨
    (∃ tv, ("id-" ++ c.id) ∉ st.markers ∧ c.author ≠ "fhdgl" ∧
      st.hgetS c.submission "total" = some tv ∧ PER_THREAD ≤ tv ∧
      check_db st c true = (Decision.Reject Reason.ThreadSaturated, markSt st c)) ∨
    (∃ tv, ("id-" ++ c.id) ∉ st.markers ∧ c.author ≠ "fhdgl" ∧
      st.hgetS c.submission "total" = some tv ∧ ¬ PER_THREAD ≤ tv ∧
      PER_THREAD_USER ≤ authCount st c.submission c.author ∧
      check_db st c true = (Decision.Reject Reason.AuthorSaturated, markSt st c)) ∨
    (∃ tv, ("id-" ++ c.id) ∉ st.markers ∧ c.author ≠ "fhdgl" ∧
      st.hgetS c.submission "total" = some tv ∧ ¬ PER_THREAD ≤ tv ∧
      ¬ PER_THREAD_USER ≤ authCount st c.submission c.author ∧
      check_db st c true =
        (Decision.Accept,
          ((markSt st c).hincrbyS c.submission c.author).hincrbyS c.submission (toString tv))) := by
  by_cases hm : ("id-" ++ c.id) ∈ st.markers
  · exact Or.inl ⟨hm, cdb_marked st c true hm⟩
  · by_cases ha : c.author = "fhdgl"
    · exact Or.inr (Or.inl ⟨hm, ha, by simpa using cdb_fhdgl st c true hm ha⟩)
    · cases hT : st.hgetS c.submission "total" with
      | none =>
        exact Or.inr (Or.inr (Or.inl ⟨hm, ha, rfl, by simpa using cdb_create st c true hm ha hT⟩))
      | some tv =>
        by_cases h25 : PER_THREAD ≤ tv
        · exact Or.inr (Or.inr (Or.inr (Or.inl
            ⟨tv, hm, ha, rfl, h25, by simpa using cdb_thread st c true tv hm ha hT h25⟩)))
        · by_cases h5 : PER_THREAD_USER ≤ authCount st c.submission c.author
          · exact Or.inr (Or.inr (Or.inr (Or.inr (Or.inl
              ⟨tv, hm, ha, rfl, h25, h5, by simpa using cdb_author st c true tv hm ha hT h25 h5⟩))))
          · exact Or.inr (Or.inr (Or.inr (Or.inr (Or.inr
              ⟨tv, hm, ha, rfl, h25, h5, cdb_pass_commit st c tv hm ha hT h25 h5⟩))))

/-- Exhaustive description of the admission check (`update = False`): the
store is returned unchanged except in the record-creation branch. -/
lemma cdb_check_cases (st : Store) (c : Comment) :
    ((check_db st c false).2 = st) ∨
    (("id-" ++ c.id) ∉ st.markers ∧ c.author ≠ "fhdgl" ∧
      st.hgetS c.submission "total" = none ∧
      check_db st c false =
        (Decision.Accept, st.hmsetS c.submission [(c.author, 0), ("total", 0)])) := by
  by_cases hm : ("id-" ++ c.id) ∈ st.markers
  · exact Or.inl (by rw [cdb_marked st c false hm])
  · by_cases ha : c.author = "fhdgl"
    · exact Or.inl (by simp [cdb_fhdgl st c false hm ha])
    · cases hT : st.hgetS c.submission "total" with
      | none =>
        exact Or.inr ⟨hm, ha, rfl, by simpa using cdb_create st c false hm ha hT⟩
      | some tv =>
        by_cases h25 : PER_THREAD ≤ tv
        · exact Or.inl (by simp [cdb_thread st c false tv hm ha hT h25])
        · by_cases h5 : PER_THREAD_USER ≤ authCount st c.submission c.author
          · exact Or.inl (by simp [cdb_author st c false tv hm ha hT h25 h5])
          · exact Or.inl (by simp [cdb_pass_check st c tv hm ha hT h25 h5])

lemma markSt_hgetS (st : Store) (c : Comment) (k f : String) :
    (markSt st c).hgetS k f = st.hgetS k f := rfl

/- ----------------------------------------------------------------- -/
/- C4 and C5: mutation profile of commit and admission                -/
/- ----------------------------------------------------------------- -/

/-- C4 counterexample: on a store where `alice` is at the per-author cap for
submission `s1`, committing a fresh comment of hers is rejected with
`AuthorSaturated`, yet the store is NOT left as it was: the idempotency
marker for the comment was already written before the cap check. -/
theorem commit_mutates_on_reject_cex :
    (check_db stC4 cC4 true).1 = Decision.Reject Reason.AuthorSaturated ∧
    (check_db stC4 cC4 true).2 ≠ stC4 := by
  decide

/-- C4 (amended): the commit check leaves the store wholly unchanged only on
`Reject(AlreadyHandled)`; the counter hashes are untouched on every
rejection; but the idempotency marker is present after every commit — it is
written before the saturation checks, so saturation rejections mark the
comment too.  On acceptance with no existing record, the record is created
with the author's count and the total initialized to 0, not incremented; on
acceptance over an existing record the author's count is incremented by one
(the companion increment targets the field named after the total's current
value rather than `'total'`). -/
theorem commit_mutation (st : Store) (c : Comment) :
    ((check_db st c true).1 = Decision.Reject Reason.AlreadyHandled →
      (check_db st c true).2 = st) ∧
    (∀ r, (check_db st c true).1 = Decision.Reject r →
      (check_db st c true).2.hashes = st.hashes) ∧
    (("id-" ++ c.id) ∈ (check_db st c true).2.markers) ∧
    ((check_db st c true).1 = Decision.Accept → c.author ≠ "fhdgl" →
      st.hgetS c.submission "total" = none →
      (check_db st c true).2.hgetS c.submission "total" = some 0 ∧
      (check_db st c true).2.hgetS c.submission c.author = some 0) ∧
    (∀ tv, (check_db st c true).1 = Decision.Accept → c.author ≠ "fhdgl" →
      st.hgetS c.submission "total" = some tv → c.author ≠ toString tv →
      (check_db st c true).2.hgetS c.submission c.author =
        some (authCount st c.submission c.author + 1)) := by
  rcases cdb_commit_cases st c with
    ⟨hm, he⟩ | ⟨hm, ha, he⟩ | ⟨hm, ha, hT, he⟩ | ⟨tv, hm, ha, hT, h25, he⟩ |
    ⟨tv, hm, ha, hT, h25, h5, he⟩ | ⟨tv, hm, ha, hT, h25, h5, he⟩
  · refine ⟨fun _ => by rw [he], fun r _ => by rw [he], ?_, by simp [he], by simp [he]⟩
    rw [he]
    exact hm
  · refine ⟨by simp [he], by simp [he], ?_, ?_, ?_⟩
    · rw [he]
      simp [markSt]
    · intro _ ha'
      exact absurd ha ha'
    · intro _ _ ha'
      exact absurd ha ha'
  · refine ⟨by simp [he], by simp [he], ?_, ?_, ?_⟩
    · rw [he]
      simp [markers_hmsetS, markSt]
    · intro _ _ _
      rw [he]
      constructor
      · simp [hgetS_hmset2]
      · by_cases hca : c.author = "total" <;> simp [hgetS_hmset2, hca]
    · intro tv _ _ hsome _
      rw [hT] at hsome
      exact absurd hsome (by simp)
  · refine ⟨by simp [he], fun r _ => by rw [he]; rfl, ?_, by simp [he], ?_⟩
    · rw [he]
      simp [markSt]
    · intro tv' hacc
      rw [he] at hacc
      exact absurd hacc (by simp)
  · refine ⟨by simp [he], fun r _ => by rw [he]; rfl, ?_, by simp [he], ?_⟩
    · rw [he]
      simp [markSt]
    · intro tv' hacc
      rw [he] at hacc
      exact absurd hacc (by simp)
  · refine ⟨by simp [he], by simp [he], ?_, ?_, ?_⟩
    · rw [he]
      simp [markers_hincrbyS, markSt]
    · intro _ _ hnone
      rw [hT] at hnone
      exact absurd hnone (by simp)
    · intro tv' _ _ hsome hne
      have htv : tv' = tv := by
        rw [hT] at hsome
        exact (Option.some.injEq _ _ ▸ hsome).symm
      subst htv
      rw [he]
      rw [hgetS_hincrbyS]
      simp only [if_pos rfl]
      rw [if_neg hne, hgetS_hincrbyS]
      simp [markSt_hgetS, authCount]

/-- C4 witness: committing a fresh comment on an empty store accepts, creates
the record, and leaves both the total and the author's count at 0. -/
theorem commit_mutation_witness :
    (check_db store0 exC true).2.hgetS "s1" "total" = some 0 ∧
    (check_db store0 exC true).2.hgetS "s1" "alice" = some 0 :=
  (commit_mutation store0 exC).2.2.2.1 (by decide) (by decide) (by decide)

/-- C5 counterexample: the admission check (`update=False`) on a fresh store
accepts a candidate AND mutates the store — it creates the Decision Record
for the submission even though `update` is false. -/
theorem admission_mutates_cex :
    (check_db store0 exC false).1 = Decision.Accept ∧
    (check_db store0 exC false).2 ≠ store0 := by
  decide

/-- C5 (amended): the admission check never touches the markers, never
modifies an existing Decision Record, and never touches other submissions'
hashes; its sole mutation is creating a missing Decision Record (author count
0, total 0) on the accepting path where the comment is unmarked and the
author is not allow-listed. -/
theorem admission_frame (st : Store) (c : Comment) :
    ((check_db st c false).2.markers = st.markers) ∧
    (recordP st c.submission → (check_db st c false).2 = st) ∧
    (∀ s, s ≠ c.submission → (check_db st c false).2.hashes.lookup s = st.hashes.lookup s) ∧
    (¬ recordP st c.submission → ("id-" ++ c.id) ∉ st.markers → c.author ≠ "fhdgl" →
      (check_db st c false).2.hgetS c.submission "total" = some 0 ∧
      (check_db st c false).2.hgetS c.submission c.author = some 0) := by
  have hconj4 : ¬ recordP st c.submission → ("id-" ++ c.id) ∉ st.markers → c.author ≠ "fhdgl" →
      (check_db st c false).2.hgetS c.submission "total" = some 0 ∧
      (check_db st c false).2.hgetS c.submission c.author = some 0 := by
    intro hr hm ha
    have hT : st.hgetS c.submission "total" = none := by
      rcases h : st.hgetS c.submission "total" with _ | v
      · rfl
      · exact absurd (by simp [recordP, h]) hr
    rw [cdb_create st c false hm ha hT]
    constructor
    · simp [hgetS_hmset2]
    · by_cases hca : c.author = "total" <;> simp [hgetS_hmset2, hca]
  rcases cdb_check_cases st c with he | ⟨hm, ha, hT, he⟩
  · exact ⟨by rw [he], fun _ => he, fun s _ => by rw [he], hconj4⟩
  · refine ⟨?_, ?_, ?_, hconj4⟩
    · rw [he]
      simp [markers_hmsetS]
    · intro hr
      rw [recordP, hT] at hr
      exact absurd hr (by simp)
    · intro s hs
      rw [he]
      exact hashes_lookup_hmsetS st c.submission _ s hs

/-- C5 witness: on a store whose record for the submission already exists, the
admission check leaves the store exactly unchanged. -/
theorem admission_frame_witness : (check_db stC4 cC4 false).2 = stC4 :=
  (admission_frame stC4 cC4).2.1 (show (stC4.hgetS cC4.submission "total").isSome = true by decide)

/- ----------------------------------------------------------------- -/
/- C2: the thread cap is dead code                                    -/
/- ----------------------------------------------------------------- -/

/-- C2 failing input, evaluated: six non-allow-listed authors admit and
commit five comments each on submission `s2`; all 30 commits are accepted —
five more than the thread cap of 25 — and the record's `'total'` field still
reads 0 afterwards, because line 352 increments the field named `"0"` (the
stringified integer value of `total`) instead of `'total'`. -/
theorem thread_cap_overrun :
    acceptedForSub store0 c2Trace "s2" = 30 ∧
    (traceRun store0 c2Trace).1.hgetS "s2" "total" = some 0 ∧
    (traceRun store0 c2Trace).1.hgetS "s2" "0" = some 30 := by
  decide

/- ----------------------------------------------------------------- -/
/- Monotonicity of the store along runs                               -/
/- ----------------------------------------------------------------- -/

lemma markers_mono_cdb (st : Store) (c : Comment) (u : Bool) (k : String)
    (h : k ∈ st.markers) : k ∈ (check_db st c u).2.markers := by
  by_cases hm : ("id-" ++ c.id) ∈ st.markers
  · rw [cdb_marked st c u hm]
    exact h
  · have hmark : k ∈ (if u then markSt st c else st).markers := by
      cases u
      · exact h
      · exact List.mem_cons_of_mem _ h
    by_cases ha : c.author = "fhdgl"
    · rw [cdb_fhdgl st c u hm ha]
      exact hmark
    · cases hT : st.hgetS c.submission "total" with
      | none =>
        rw [cdb_create st c u hm ha hT]
        simpa [markers_hmsetS] using hmark
      | some tv =>
        by_cases h25 : PER_THREAD ≤ tv
        · rw [cdb_thread st c u tv hm ha hT h25]
          exact hmark
        · by_cases h5 : PER_THREAD_USER ≤ authCount st c.submission c.author
          · rw [cdb_author st c u tv hm ha hT h25 h5]
            exact hmark
          · cases u
            · rw [cdb_pass_check st c tv hm ha hT h25 h5]
              exact h
            · rw [cdb_pass_commit st c tv hm ha hT h25 h5]
              simpa [markers_hincrbyS, markSt] using List.mem_cons_of_mem _ h

lemma markers_mono_applyOp (st : Store) (o : Op) (k : String) (h : k ∈ st.markers) :
    k ∈ (applyOp st o).2.markers := by
  cases o with
  | check c => exact markers_mono_cdb st c false k h
  | commit c => exact markers_mono_cdb st c true k h

/-- Every commit leaves the comment's idempotency marker set. -/
lemma marker_after_commit (st : Store) (c : Comment) :
    ("id-" ++ c.id) ∈ (check_db st c true).2.markers := by
  rcases cdb_commit_cases st c with
    ⟨hm, he⟩ | ⟨hm, ha, he⟩ | ⟨hm, ha, hT, he⟩ | ⟨tv, hm, ha, hT, h25, he⟩ |
    ⟨tv, hm, ha, hT, h25, h5, he⟩ | ⟨tv, hm, ha, hT, h25, h5, he⟩ <;>
    rw [he] <;> simp [markSt, markers_hmsetS, markers_hincrbyS]
  exact hm

lemma isSome_hincrbyS (st : Store) (k f s g : String)
    (h : (st.hgetS s g).isSome = true) : ((st.hincrbyS k f).hgetS s g).isSome = true := by
  rw [hgetS_hincrbyS]
  by_cases hk : s = k
  · subst hk
    by_cases hf : g = f <;> simp [hf, h]
  · simp [hk, h]

lemma isSome_hmset2 (st : Store) (k a s g : String)
    (h : (st.hgetS s g).isSome = true) :
    ((st.hmsetS k [(a, 0), ("total", 0)]).hgetS s g).isSome = true := by
  rw [hgetS_hmset2]
  by_cases hk : s = k
  · subst hk
    by_cases ht : g = "total"
    · simp [ht]
    · by_cases hA : g = a <;> simp [ht, hA, h]
  · simp [hk, h]

lemma record_mono_cdb (st : Store) (c : Comment) (u : Bool) (s : String)
    (h : (st.hgetS s "total").isSome = true) :
    ((check_db st c u).2.hgetS s "total").isSome = true := by
  by_cases hm : ("id-" ++ c.id) ∈ st.markers
  · rw [cdb_marked st c u hm]
    exact h
  · have hmid : ((if u then markSt st c else st).hgetS s "total").isSome = true := by
      cases u <;> simpa [markSt_hgetS] using h
    by_cases ha : c.author = "fhdgl"
    · rw [cdb_fhdgl st c u hm ha]
      exact hmid
    · cases hT : st.hgetS c.submission "total" with
      | none =>
        rw [cdb_create st c u hm ha hT]
        cases u
        · exact isSome_hmset2 st c.submission c.author s "total" h
        · exact isSome_hmset2 (markSt st c) c.submission c.author s "total" h
      | some tv =>
        by_cases h25 : PER_THREAD ≤ tv
        · rw [cdb_thread st c u tv hm ha hT h25]
          exact hmid
        · by_cases h5 : PER_THREAD_USER ≤ authCount st c.submission c.author
          · rw [cdb_author st c u tv hm ha hT h25 h5]
            exact hmid
          · cases u
            · rw [cdb_pass_check st c tv hm ha hT h25 h5]
              exact h
            · rw [cdb_pass_commit st c tv hm ha hT h25 h5]
              exact isSome_hincrbyS _ c.submission (toString tv) s "total"
                (isSome_hincrbyS (markSt st c) c.submission c.author s "total" h)

lemma record_mono_applyOp (st : Store) (o : Op) (s : String)
    (h : (st.hgetS s "total").isSome = true) :
    ((applyOp st o).2.hgetS s "total").isSome = true := by
  cases o with
  | check c => exact record_mono_cdb st c false s h
  | commit c => exact record_mono_cdb st c true s h

/- ----------------------------------------------------------------- -/
/- Trace lemmas                                                       -/
/- ----------------------------------------------------------------- -/

lemma traceRun_cons (st : Store) (o : Op) (rest : List Op) :
    traceRun st (o :: rest) =
      ((traceRun (applyOp st o).2 rest).1,
        (o, (applyOp st o).1) :: (traceRun (applyOp st o).2 rest).2) := rfl

lemma traceRun_append_fst (st : Store) (l1 l2 : List Op) :
    (traceRun st (l1 ++ l2)).1 = (traceRun (traceRun st l1).1 l2).1 := by
  induction l1 generalizing st with
  | nil => rfl
  | cons o t ih => simpa [traceRun_cons] using ih (applyOp st o).2

lemma markers_run_mono (ops : List Op) (st : Store) (k : String) (h : k ∈ st.markers) :
    k ∈ (traceRun st ops).1.markers := by
  induction ops generalizing st with
  | nil => exact h
  | cons o t ih => exact ih (applyOp st o).2 (markers_mono_applyOp st o k h)

lemma record_run_mono (ops : List Op) (st : Store) (s : String)
    (h : (st.hgetS s "total").isSome = true) :
    ((traceRun st ops).1.hgetS s "total").isSome = true := by
  induction ops generalizing st with
  | nil => exact h
  | cons o t ih => exact ih (applyOp st o).2 (record_mono_applyOp st o s h)

lemma deliveredIds_cons (st : Store) (o : Op) (rest : List Op) :
    deliveredIds st (o :: rest) =
      (match o, (applyOp st o).1 with
       | Op.commit c, Decision.Accept => [c.id]
       | _, _ => []) ++ deliveredIds (applyOp st o).2 rest := by
  cases o with
  | check c => simp [deliveredIds, traceRun_cons, List.filterMap_cons]
  | commit c =>
    rcases hd : (applyOp st (Op.commit c)).1 with _ | r <;>
      simp [deliveredIds, traceRun_cons, List.filterMap_cons, hd]

lemma count_deliveredIds_marked :
    ∀ (ops : List Op) (st : Store) (i : String), ("id-" ++ i) ∈ st.markers →
      (deliveredIds st ops).count i = 0 := by
  intro ops
  induction ops with
  | nil =>
    intro st i _
    simp [deliveredIds, traceRun]
  | cons o rest ih =>
    intro st i h
    rw [deliveredIds_cons]
    cases o with
    | check c =>
      simpa using ih (applyOp st (Op.check c)).2 i (markers_mono_applyOp st (Op.check c) _ h)
    | commit c =>
      rcases hd : (applyOp st (Op.commit c)).1 with _ | r
      · have hne : ¬ c.id = i := by
          intro hEq
          have hmem : ("id-" ++ c.id) ∈ st.markers := by rw [hEq]; exact h
          have := cdb_marked st c true hmem
          rw [show applyOp st (Op.commit c) = check_db st c true from rfl, this] at hd
          exact absurd hd (by simp)
        have hrest := ih (applyOp st (Op.commit c)).2 i (markers_mono_applyOp st (Op.commit c) _ h)
        simp [hd, hrest, List.count_cons, hne]
      · simpa [hd] using ih (applyOp st (Op.commit c)).2 i (markers_mono_applyOp st (Op.commit c) _ h)

lemma count_deliveredIds_le_one :
    ∀ (ops : List Op) (st : Store) (i : String), (deliveredIds st ops).count i ≤ 1 := by
  intro ops
  induction ops with
  | nil =>
    intro st i
    simp [deliveredIds, traceRun]
  | cons o rest ih =>
    intro st i
    rw [deliveredIds_cons]
    cases o with
    | check c => simpa using ih (applyOp st (Op.check c)).2 i
    | commit c =>
      rcases hd : (applyOp st (Op.commit c)).1 with _ | r
      · by_cases hEq : c.id = i
        · have hmarked : ("id-" ++ i) ∈ (applyOp st (Op.commit c)).2.markers := by
            rw [← hEq]
            exact marker_after_commit st c
          have hrest := count_deliveredIds_marked rest (applyOp st (Op.commit c)).2 i hmarked
          simp [hd, hrest, List.count_cons, hEq]
        · simpa [hd, List.count_cons, hEq] using ih (applyOp st (Op.commit c)).2 i
      · simpa [hd] using ih (applyOp st (Op.commit c)).2 i

/- ----------------------------------------------------------------- -/
/- C1: at-most-once delivery                                          -/
/- ----------------------------------------------------------------- -/

/-- C1: along every operation sequence from the initial store, delivery fires
at most once per comment id; once any commit for a comment has run, every
later commit for the same comment id is rejected with `AlreadyHandled` (so
its rendered text is never delivered); and in the duplicate-admission
scenario — the same comment admitted twice, then committed twice — exactly
the first commit accepts and delivers and the second is rejected with
`AlreadyHandled`. -/
theorem at_most_once_delivery :
    (∀ (ops : List Op) (i : String), (deliveredIds store0 ops).count i ≤ 1) ∧
    (∀ (pre : List Op) (c : Comment) (mid : List Op) (c2 : Comment), c2.id = c.id →
      (check_db (traceRun store0 (pre ++ Op.commit c :: mid)).1 c2 true).1 =
        Decision.Reject Reason.AlreadyHandled) ∧
    (deliveredIds store0 [Op.check exC, Op.check exC, Op.commit exC, Op.commit exC] = [exC.id] ∧
      (traceRun store0 [Op.check exC, Op.check exC, Op.commit exC, Op.commit exC]).2.map Prod.snd =
        [Decision.Accept, Decision.Accept, Decision.Accept,
          Decision.Reject Reason.AlreadyHandled]) := by
  refine ⟨fun ops i => count_deliveredIds_le_one ops store0 i, ?_, by decide⟩
  intro pre c mid c2 hid
  have hmem : ("id-" ++ c.id) ∈ (traceRun store0 (pre ++ Op.commit c :: mid)).1.markers := by
    rw [traceRun_append_fst]
    rw [traceRun_cons]
    exact markers_run_mono mid _ _ (marker_after_commit (traceRun store0 pre).1 c)
  have hmem2 : ("id-" ++ c2.id) ∈ (traceRun store0 (pre ++ Op.commit c :: mid)).1.markers := by
    rw [hid]
    exact hmem
  rw [cdb_marked _ c2 true hmem2]

/-- C1 witness: instantiating the later-duplicate clause at a concrete
one-commit trace. -/
theorem at_most_once_delivery_witness :
    (check_db (traceRun store0 ([] ++ Op.commit exC :: [])).1 exC true).1 =
      Decision.Reject Reason.AlreadyHandled :=
  at_most_once_delivery.2.1 [] exC [] exC rfl

/- ----------------------------------------------------------------- -/
/- Store well-formedness and counter monotonicity                     -/
/- ----------------------------------------------------------------- -/

lemma hgetS_base (st : Store) (c : Comment) (u : Bool) (k f : String) :
    ((if u then markSt st c else st) : Store).hgetS k f = st.hgetS k f := by
  cases u <;> rfl

lemma hashes_base (st : Store) (c : Comment) (u : Bool) :
    ((if u then markSt st c else st) : Store).hashes = st.hashes := by
  cases u <;> rfl

lemma record_absent_of_wf {st : Store} {k : String} (hwf : StoreWF st)
    (hT : st.hgetS k "total" = none) : st.hashes.lookup k = none := by
  rcases hls : st.hashes.lookup k with _ | h
  · rfl
  · obtain ⟨⟨v, hv⟩, _⟩ := hwf k h hls
    have hstep : st.hgetS k "total" = h.lookup "total" := by
      rw [Store.hgetS, hls]
    rw [hstep, hv] at hT
    exact absurd hT (by simp)

lemma hgetS_of_absent {st : Store} {k : String} (h : st.hashes.lookup k = none) (f : String) :
    st.hgetS k f = none := by
  rw [Store.hgetS, h]

lemma authCount_nonneg {st : Store} (hwf : StoreWF st) (sub a : String) :
    0 ≤ authCount st sub a := by
  rcases hls : st.hashes.lookup sub with _ | h
  · simp [authCount, Store.hgetS, hls]
  · rcases hlf : h.lookup a with _ | v
    · simp [authCount, Store.hgetS, hls, hlf]
    · have hv := (hwf sub h hls).2 a v hlf
      simpa [authCount, Store.hgetS, hls, hlf] using hv

lemma lookup_updAssoc_cases {α : Type} {l : List (String × α)} {k : String} {v : α}
    {f : String} {w : α} (h : (updAssoc l k v).lookup f = some w) :
    (f = k ∧ w = v) ∨ l.lookup f = some w := by
  rw [lookup_updAssoc] at h
  by_cases hf : f = k
  · rw [if_pos hf] at h
    exact Or.inl ⟨hf, (Option.some.injEq _ _ ▸ h).symm⟩
  · rw [if_neg hf] at h
    exact Or.inr h

lemma storeWF_store0 : StoreWF store0 := by
  intro s h hls
  simp [store0, List.lookup] at hls

lemma storeWF_markers (st : Store) (m : List String) (hwf : StoreWF st) :
    StoreWF (Store.mk m st.hashes) := hwf

lemma storeWF_hmset_absent (st : Store) (k a : String) (hwf : StoreWF st)
    (habs : st.hashes.lookup k = none) :
    StoreWF (st.hmsetS k [(a, 0), ("total", 0)]) := by
  intro s h hls
  rw [Store.hmsetS] at hls
  simp only [habs, Option.getD_none, List.foldl] at hls
  rcases lookup_updAssoc_cases hls with ⟨hs, hh⟩ | hold
  · subst hh
    constructor
    · refine ⟨0, ?_⟩
      rw [lookup_updAssoc]
      simp
    · intro f v hv
      rcases lookup_updAssoc_cases hv with ⟨_, hv0⟩ | hv'
      · omega
      · rcases lookup_updAssoc_cases hv' with ⟨_, hv0⟩ | hv''
        · omega
        · simp [List.lookup] at hv''
  · exact hwf s h hold

lemma storeWF_hincrbyS (st : Store) (k f : String) (hwf : StoreWF st)
    (hrec : (st.hgetS k "total").isSome = true) : StoreWF (st.hincrbyS k f) := by
  obtain ⟨h0, hls0⟩ : ∃ h0, st.hashes.lookup k = some h0 := by
    rw [Store.hgetS] at hrec
    rcases hls : st.hashes.lookup k with _ | h0
    · rw [hls] at hrec
      exact absurd hrec (by simp)
    · exact ⟨h0, rfl⟩
  intro s h hls
  rw [Store.hincrbyS] at hls
  simp only [hls0, Option.getD_some] at hls
  rcases lookup_updAssoc_cases hls with ⟨hs, hh⟩ | hold
  · subst hh
    obtain ⟨⟨tv, htv⟩, hvals⟩ := hwf k h0 hls0
    constructor
    · by_cases htf : "total" = f
      · refine ⟨(h0.lookup f).getD 0 + 1, ?_⟩
        rw [lookup_updAssoc, if_pos htf]
      · exact ⟨tv, by rw [lookup_updAssoc, if_neg htf]; exact htv⟩
    · intro g v hv
      rcases lookup_updAssoc_cases hv with ⟨_, hv0⟩ | hv'
      · have : 0 ≤ (h0.lookup f).getD 0 := by
          rcases hlf : h0.lookup f with _ | w
          · simp
          · simpa using hvals f w hlf
        omega
      · exact hvals g v hv'
  · exact hwf s h hold

lemma storeWF_cdb (st : Store) (c : Comment) (u : Bool) (hwf : StoreWF st) :
    StoreWF (check_db st c u).2 := by
  by_cases hm : ("id-" ++ c.id) ∈ st.markers
  · rw [cdb_marked st c u hm]
    exact hwf
  · have hwfb : StoreWF ((if u then markSt st c else st) : Store) := by
      cases u
      · exact hwf
      · exact hwf
    by_cases ha : c.author = "fhdgl"
    · rw [cdb_fhdgl st c u hm ha]
      exact hwfb
    · cases hT : st.hgetS c.submission "total" with
      | none =>
        rw [cdb_create st c u hm ha hT]
        have habs : st.hashes.lookup c.submission = none := record_absent_of_wf hwf hT
        have habs' : ((if u then markSt st c else st) : Store).hashes.lookup c.submission = none := by
          rw [hashes_base]
          exact habs
        exact storeWF_hmset_absent _ c.submission c.author hwfb habs'
      | some tv =>
        by_cases h25 : PER_THREAD ≤ tv
        · rw [cdb_thread st c u tv hm ha hT h25]
          exact hwfb
        · by_cases h5 : PER_THREAD_USER ≤ authCount st c.submission c.author
          · rw [cdb_author st c u tv hm ha hT h25 h5]
            exact hwfb
          · cases u
            · rw [cdb_pass_check st c tv hm ha hT h25 h5]
              exact hwf
            · rw [cdb_pass_commit st c tv hm ha hT h25 h5]
              have hrec1 : ((markSt st c).hgetS c.submission "total").isSome = true := by
                rw [markSt_hgetS, hT]
                rfl
              exact storeWF_hincrbyS _ c.submission (toString tv)
                (storeWF_hincrbyS _ c.submission c.author hwf hrec1)
                (isSome_hincrbyS _ c.submission c.author c.submission "total" hrec1)

lemma storeWF_applyOp (st : Store) (o : Op) (hwf : StoreWF st) : StoreWF (applyOp st o).2 := by
  cases o with
  | check c => exact storeWF_cdb st c false hwf
  | commit c => exact storeWF_cdb st c true hwf

lemma storeWF_run (ops : List Op) (st : Store) (hwf : StoreWF st) :
    StoreWF (traceRun st ops).1 := by
  induction ops generalizing st with
  | nil => exact hwf
  | cons o t ih => exact ih (applyOp st o).2 (storeWF_applyOp st o hwf)

lemma authCount_mono_cdb (st : Store) (c : Comment) (u : Bool) (sub a : String)
    (hwf : StoreWF st) : authCount st sub a ≤ authCount (check_db st c u).2 sub a := by
  by_cases hm : ("id-" ++ c.id) ∈ st.markers
  · rw [cdb_marked st c u hm]
  · by_cases ha : c.author = "fhdgl"
    · rw [cdb_fhdgl st c u hm ha]
      rw [authCount, authCount, hgetS_base]
    · cases hT : st.hgetS c.submission "total" with
      | none =>
        rw [cdb_create st c u hm ha hT]
        have habs : st.hashes.lookup c.submission = none := record_absent_of_wf hwf hT
        by_cases hs : sub = c.submission
        · have h0 : authCount st sub a = 0 := by
            rw [authCount, hs, hgetS_of_absent habs]
            rfl
          have hb : ((if u then markSt st c else st) : Store).hgetS c.submission a = none := by
            rw [hgetS_base, hgetS_of_absent habs]
          rw [h0, authCount, hs, hgetS_hmset2, if_pos rfl]
          by_cases h1 : a = "total"
          · simp [h1]
          · by_cases h2 : a = c.author
            · simp [h1, h2]
            · simp [h1, h2, hb]
        · rw [authCount, authCount, hgetS_hmset2, if_neg hs, hgetS_base]
      | some tv =>
        by_cases h25 : PER_THREAD ≤ tv
        · rw [cdb_thread st c u tv hm ha hT h25]
          rw [authCount, authCount, hgetS_base]
        · by_cases h5 : PER_THREAD_USER ≤ authCount st c.submission c.author
          · rw [cdb_author st c u tv hm ha hT h25 h5]
            rw [authCount, authCount, hgetS_base]
          · cases u
            · rw [cdb_pass_check st c tv hm ha hT h25 h5]
            · rw [cdb_pass_commit st c tv hm ha hT h25 h5]
              rw [authCount, authCount, hgetS_hincrbyS]
              by_cases hs : sub = c.submission
              · rw [hs, if_pos rfl]
                by_cases hf2 : a = toString tv
                · rw [if_pos hf2, hgetS_hincrbyS, if_pos rfl]
                  by_cases hf1 : toString tv = c.author
                  · rw [if_pos hf1, markSt_hgetS, ← hf1, ← hf2]
                    rcases st.hgetS c.submission a with _ | v <;> simp <;> try omega
                  · rw [if_neg hf1, markSt_hgetS, ← hf2]
                    rcases st.hgetS c.submission a with _ | v <;> simp <;> try omega
                · rw [if_neg hf2, hgetS_hincrbyS, if_pos rfl]
                  by_cases hf1 : a = c.author
                  · rw [if_pos hf1, markSt_hgetS, ← hf1]
                    rcases st.hgetS c.submission a with _ | v <;> simp <;> try omega
                  · rw [if_neg hf1, markSt_hgetS]
              · rw [if_neg hs, hgetS_hincrbyS, if_neg hs, markSt_hgetS]

lemma authCount_mono_applyOp (st : Store) (o : Op) (sub a : String) (hwf : StoreWF st) :
    authCount st sub a ≤ authCount (applyOp st o).2 sub a := by
  cases o with
  | check c => exact authCount_mono_cdb st c false sub a hwf
  | commit c => exact authCount_mono_cdb st c true sub a hwf

lemma totalsZero_base (st : Store) (c : Comment) (u : Bool) (htz : TotalsZero st) :
    TotalsZero ((if u then markSt st c else st) : Store) := by
  cases u
  · exact htz
  · exact htz

lemma totalsZero_cdb (st : Store) (c : Comment) (u : Bool) (htz : TotalsZero st)
    (hca : c.author ≠ "total") : TotalsZero (check_db st c u).2 := by
  by_cases hm : ("id-" ++ c.id) ∈ st.markers
  · rw [cdb_marked st c u hm]
    exact htz
  · by_cases ha : c.author = "fhdgl"
    · rw [cdb_fhdgl st c u hm ha]
      exact totalsZero_base st c u htz
    · cases hT : st.hgetS c.submission "total" with
      | none =>
        rw [cdb_create st c u hm ha hT]
        intro s v hv
        rw [hgetS_hmset2] at hv
        by_cases hs : s = c.submission
        · rw [if_pos hs, if_pos rfl] at hv
          exact (Option.some.inj hv).symm
        · rw [if_neg hs, hgetS_base] at hv
          exact htz s v hv
      | some tv =>
        have htv : tv = 0 := htz c.submission tv hT
        by_cases h25 : PER_THREAD ≤ tv
        · rw [cdb_thread st c u tv hm ha hT h25]
          exact totalsZero_base st c u htz
        · by_cases h5 : PER_THREAD_USER ≤ authCount st c.submission c.author
          · rw [cdb_author st c u tv hm ha hT h25 h5]
            exact totalsZero_base st c u htz
          · cases u
            · rw [cdb_pass_check st c tv hm ha hT h25 h5]
              exact htz
            · rw [cdb_pass_commit st c tv hm ha hT h25 h5]
              have hts : toString tv = "0" := by
                rw [htv]
                rfl
              intro s v hv
              rw [hgetS_hincrbyS] at hv
              by_cases hs : s = c.submission
              · rw [if_pos hs, if_neg (by rw [hts]; decide), hgetS_hincrbyS, if_pos rfl,
                  if_neg (fun hh => hca hh.symm), markSt_hgetS] at hv
                exact htz c.submission v hv
              · rw [if_neg hs, hgetS_hincrbyS, if_neg hs, markSt_hgetS] at hv
                exact htz s v hv

lemma totalsZero_applyOp (st : Store) (o : Op) (htz : TotalsZero st)
    (hca : opAuthor o ≠ "total") : TotalsZero (applyOp st o).2 := by
  cases o with
  | check c => exact totalsZero_cdb st c false htz hca
  | commit c => exact totalsZero_cdb st c true htz hca

lemma totalsZero_run (ops : List Op) (st : Store) (htz : TotalsZero st)
    (hops : ∀ o ∈ ops, opAuthor o ≠ "total") : TotalsZero (traceRun st ops).1 := by
  induction ops generalizing st with
  | nil => exact htz
  | cons o t ih =>
    exact ih (applyOp st o).2
      (totalsZero_applyOp st o htz (hops o (List.mem_cons_self o t)))
      (fun o' ho' => hops o' (List.mem_cons_of_mem o ho'))

lemma totalsZero_store0 : TotalsZero store0 := by
  intro s v hv
  simp [store0, Store.hgetS, List.lookup] at hv

/- ----------------------------------------------------------------- -/
/- Record-or-marker invariant                                         -/
/- ----------------------------------------------------------------- -/

lemma rom_mono_applyOp (st : Store) (o : Op) (c : Comment) (h : RoM st c) :
    RoM (applyOp st o).2 c := by
  rcases h with h | h
  · exact Or.inl (record_mono_applyOp st o c.submission h)
  · exact Or.inr (markers_mono_applyOp st o _ h)

lemma rom_after_check (st : Store) (c : Comment) (ha : c.author ≠ "fhdgl") :
    RoM (check_db st c false).2 c := by
  by_cases hm : ("id-" ++ c.id) ∈ st.markers
  · rw [cdb_marked st c false hm]
    exact Or.inr hm
  · cases hT : st.hgetS c.submission "total" with
    | none =>
      rw [cdb_create st c false hm ha hT]
      refine Or.inl ?_
      show ((st.hmsetS c.submission [(c.author, 0), ("total", 0)]).hgetS c.submission "total").isSome = true
      rw [hgetS_hmset2, if_pos rfl, if_pos rfl]
      rfl
    | some tv =>
      exact Or.inl (record_mono_cdb st c false c.submission (by rw [hT]; rfl))

lemma accept_incr (st : Store) (c : Comment) (tv : Int)
    (hm : ("id-" ++ c.id) ∉ st.markers) (ha : c.author ≠ "fhdgl")
    (hT : st.hgetS c.submission "total" = some tv) (h25 : ¬ PER_THREAD ≤ tv)
    (h5 : ¬ PER_THREAD_USER ≤ authCount st c.submission c.author) :
    authCount st c.submission c.author + 1 ≤
      authCount (check_db st c true).2 c.submission c.author := by
  rw [cdb_pass_commit st c tv hm ha hT h25 h5]
  rw [authCount, authCount, hgetS_hincrbyS, if_pos rfl]
  by_cases hf2 : c.author = toString tv
  · rw [if_pos hf2, hgetS_hincrbyS, if_pos rfl, if_pos hf2.symm, markSt_hgetS]
    simp
  · rw [if_neg hf2, hgetS_hincrbyS, if_pos rfl, if_pos rfl, markSt_hgetS]
    simp

lemma record_after_accepted_commit (st : Store) (c : Comment)
    (hAcc : (check_db st c true).1 = Decision.Accept) (hfa : c.author ≠ "fhdgl") :
    ((check_db st c true).2.hgetS c.submission "total").isSome = true := by
  rcases cdb_commit_cases st c with
    ⟨hm, he⟩ | ⟨hm, ha, he⟩ | ⟨hm, ha, hT, he⟩ | ⟨tv, hm, ha, hT, h25, he⟩ |
    ⟨tv, hm, ha, hT, h25, h5, he⟩ | ⟨tv, hm, ha, hT, h25, h5, he⟩
  · rw [he] at hAcc
    exact absurd hAcc (by simp)
  · exact absurd ha hfa
  · rw [he]
    simp only []
    rw [hgetS_hmset2, if_pos rfl, if_pos rfl]
    rfl
  · rw [he] at hAcc
    exact absurd hAcc (by simp)
  · rw [he] at hAcc
    exact absurd hAcc (by simp)
  · rw [he]
    have hbase : ((markSt st c).hgetS c.submission "total").isSome = true := by
      rw [markSt_hgetS, hT]
      rfl
    exact isSome_hincrbyS _ c.submission (toString tv) c.submission "total"
      (isSome_hincrbyS (markSt st c) c.submission c.author c.submission "total" hbase)

/- ----------------------------------------------------------------- -/
/- Counting accepted commits                                          -/
/- ----------------------------------------------------------------- -/

lemma acceptedForRun_cons (st : Store) (o : Op) (rest : List Op) (sub a : String) :
    acceptedForRun st (o :: rest) sub a =
      (if isAcceptedFor sub a (o, (applyOp st o).1) = true then 1 else 0) +
        acceptedForRun (applyOp st o).2 rest sub a := by
  rw [acceptedForRun, traceRun_cons]
  by_cases hx : isAcceptedFor sub a (o, (applyOp st o).1) = true
  · simp only [List.filter_cons, if_pos hx, List.length_cons, acceptedForRun]
    omega
  · simp only [List.filter_cons, if_neg hx, acceptedForRun]
    omega

lemma isAcceptedFor_check (sub a : String) (c : Comment) (d : Decision) :
    isAcceptedFor sub a (Op.check c, d) = false := by
  cases d <;> rfl

lemma isAcceptedFor_commit_true {sub a : String} {c : Comment} {d : Decision}
    (h : isAcceptedFor sub a (Op.commit c, d) = true) :
    d = Decision.Accept ∧ c.submission = sub ∧ c.author = a := by
  cases d with
  | Accept =>
    refine ⟨rfl, ?_, ?_⟩ <;> simp [isAcceptedFor] at h <;> tauto
  | Reject r => exact absurd h (by simp [isAcceptedFor])

/-- The central bound: along any pipeline-ordered suffix, the number of
accepted commits for a (submission, author) pair is limited by the remaining
headroom under the per-author cap, and the final per-author counter has grown
by at least the number of accepted commits. -/
lemma run_bound (sub a : String) (ha : a ≠ "fhdgl") :
    ∀ (ops : List Op) (st : Store) (seen : List Comment),
      StoreWF st →
      (∀ c ∈ seen, c.author ≠ "fhdgl" → RoM st c) →
      PO seen ops →
      acceptedForRun st ops sub a ≤ (5 - authCount st sub a).toNat ∧
      authCount st sub a + (acceptedForRun st ops sub a : Int) ≤
        authCount (traceRun st ops).1 sub a := by
  intro ops
  induction ops with
  | nil =>
    intro st seen _ _ _
    constructor
    · simp [acceptedForRun, traceRun]
    · simp [acceptedForRun, traceRun]
  | cons o rest ih =>
    intro st seen hwf hrom hpo
    have hwf' : StoreWF (applyOp st o).2 := storeWF_applyOp st o hwf
    have hκmono : authCount st sub a ≤ authCount (applyOp st o).2 sub a :=
      authCount_mono_applyOp st o sub a hwf
    have hfinal : (traceRun st (o :: rest)).1 = (traceRun (applyOp st o).2 rest).1 := by
      rw [traceRun_cons]
    cases o with
    | check c =>
      have hpo' : PO (c :: seen) rest := hpo
      have hrom' : ∀ c' ∈ c :: seen, c'.author ≠ "fhdgl" → RoM (applyOp st (Op.check c)).2 c' := by
        intro c' hc' hfa
        rcases List.mem_cons.mp hc' with hEq | hmem
        · subst hEq
          exact rom_after_check st c' hfa
        · exact rom_mono_applyOp st _ c' (hrom c' hmem hfa)
      obtain ⟨ihl, ihr⟩ := ih (applyOp st (Op.check c)).2 (c :: seen) hwf' hrom' hpo'
      rw [acceptedForRun_cons, isAcceptedFor_check, hfinal]
      have htn : (5 - authCount (applyOp st (Op.check c)).2 sub a).toNat ≤
          (5 - authCount st sub a).toNat := by
        omega
      constructor
      · simpa using le_trans ihl htn
      · simp only [if_neg (by simp : ¬ (false = true))]
        push_cast
        omega
    | commit c =>
      obtain ⟨hmem, hpo'⟩ := hpo
      have hrom' : ∀ c' ∈ seen, c'.author ≠ "fhdgl" → RoM (applyOp st (Op.commit c)).2 c' :=
        fun c' hc' hfa => rom_mono_applyOp st _ c' (hrom c' hc' hfa)
      obtain ⟨ihl, ihr⟩ := ih (applyOp st (Op.commit c)).2 seen hwf' hrom' hpo'
      rw [acceptedForRun_cons, hfinal]
      by_cases hacc : isAcceptedFor sub a (Op.commit c, (applyOp st (Op.commit c)).1) = true
      · obtain ⟨hAcc, hsub, hauth⟩ := isAcceptedFor_commit_true hacc
        have hAcc' : (check_db st c true).1 = Decision.Accept := hAcc
        have hfa : c.author ≠ "fhdgl" := by
          rw [hauth]
          exact ha
        have hm : ("id-" ++ c.id) ∉ st.markers := by
          intro hmm
          rw [cdb_marked st c true hmm] at hAcc'
          exact absurd hAcc' (by simp)
        have hrec : (st.hgetS c.submission "total").isSome = true := by
          rcases hrom c hmem hfa with h | h
          · exact h
          · exact absurd h hm
        obtain ⟨tv, hT⟩ : ∃ tv, st.hgetS c.submission "total" = some tv := by
          rcases hx : st.hgetS c.submission "total" with _ | v
          · rw [hx] at hrec
            exact absurd hrec (by simp)
          · exact ⟨v, rfl⟩
        have h25 : ¬ PER_THREAD ≤ tv := by
          intro h25
          rw [cdb_thread st c true tv hm hfa hT h25] at hAcc'
          exact absurd hAcc' (by simp)
        have h5 : ¬ PER_THREAD_USER ≤ authCount st c.submission c.author := by
          intro h5
          rw [cdb_author st c true tv hm hfa hT h25 h5] at hAcc'
          exact absurd hAcc' (by simp)
        have hincr : authCount st c.submission c.author + 1 ≤
            authCount (check_db st c true).2 c.submission c.author :=
          accept_incr st c tv hm hfa hT h25 h5
        have hincr' : authCount st sub a + 1 ≤ authCount (applyOp st (Op.commit c)).2 sub a := by
          rw [← hsub, ← hauth]
          exact hincr
        have hκ5 : authCount st sub a < 5 := by
          rw [← hsub, ← hauth]
          have : PER_THREAD_USER = (5 : Int) := rfl
          omega
        have hκ0 : 0 ≤ authCount st sub a := authCount_nonneg hwf sub a
        rw [if_pos hacc]
        constructor
        · omega
        · push_cast
          omega
      · rw [if_neg hacc]
        constructor
        · omega
        · push_cast
          omega

lemma record_after_accepts (sub a : String) (hfa' : a ≠ "fhdgl") :
    ∀ (ops : List Op) (st : Store), 1 ≤ acceptedForRun st ops sub a →
      ((traceRun st ops).1.hgetS sub "total").isSome = true := by
  intro ops
  induction ops with
  | nil =>
    intro st h
    simp [acceptedForRun, traceRun] at h
  | cons o rest ih =>
    intro st h
    rw [acceptedForRun_cons] at h
    have hfinal : (traceRun st (o :: rest)).1 = (traceRun (applyOp st o).2 rest).1 := by
      rw [traceRun_cons]
    rw [hfinal]
    by_cases hacc : isAcceptedFor sub a (o, (applyOp st o).1) = true
    · cases o with
      | check c =>
        rw [isAcceptedFor_check] at hacc
        exact absurd hacc (by simp)
      | commit c =>
        obtain ⟨hAcc, hsub, hauth⟩ := isAcceptedFor_commit_true hacc
        have hAcc' : (check_db st c true).1 = Decision.Accept := hAcc
        have hfa : c.author ≠ "fhdgl" := by
          rw [hauth]
          exact hfa'
        have hrec := record_after_accepted_commit st c hAcc' hfa
        rw [← hsub]
        exact record_run_mono rest _ c.submission hrec
    · rw [if_neg hacc] at h
      exact ih (applyOp st o).2 (by omega)

/- ----------------------------------------------------------------- -/
/- C3: the per-author cap                                             -/
/- ----------------------------------------------------------------- -/

/-- C3: in every pipeline-ordered trace (each commit preceded by an admission
check of the same comment, as `filter_comments` and `reply` guarantee), a
non-allow-listed author never gets more than 5 accepted commits on one
submission; and once 5 commits by that author there have been accepted, the
commit check of any further unmarked comment by that author on that
submission returns `Reject(AuthorSaturated)` (assuming no author id is the
literal string `"total"`, which would alias the redis hash field). -/
theorem per_author_cap :
    (∀ (ops : List Op) (sub a : String), a ≠ "fhdgl" → PO [] ops →
      acceptedForRun store0 ops sub a ≤ 5) ∧
    (∀ (ops : List Op) (c : Comment), PO [] ops →
      (∀ o ∈ ops, opAuthor o ≠ "total") → c.author ≠ "fhdgl" →
      acceptedForRun store0 ops c.submission c.author = 5 →
      ("id-" ++ c.id) ∉ (traceRun store0 ops).1.markers →
      (check_db (traceRun store0 ops).1 c true).1 =
        Decision.Reject Reason.AuthorSaturated) := by
  have hwf0 : StoreWF store0 := storeWF_store0
  constructor
  · intro ops sub a ha hpo
    obtain ⟨h1, _⟩ := run_bound sub a ha ops store0 []
      hwf0 (fun c hc => absurd hc (List.not_mem_nil c)) hpo
    exact h1
  · intro ops c hpo hnt hfa hacc5 hmf
    have hwff : StoreWF (traceRun store0 ops).1 := storeWF_run ops store0 hwf0
    have htzf : TotalsZero (traceRun store0 ops).1 :=
      totalsZero_run ops store0 totalsZero_store0 hnt
    obtain ⟨_, h2⟩ := run_bound c.submission c.author hfa ops store0 []
      hwf0 (fun c' hc' => absurd hc' (List.not_mem_nil c')) hpo
    have hκf : PER_THREAD_USER ≤ authCount (traceRun store0 ops).1 c.submission c.author := by
      have h0 : authCount store0 c.submission c.author = 0 := rfl
      rw [h0, hacc5] at h2
      have h55 : PER_THREAD_USER = (5 : Int) := rfl
      push_cast at h2
      omega
    have hrecf : ((traceRun store0 ops).1.hgetS c.submission "total").isSome = true :=
      record_after_accepts c.submission c.author hfa ops store0 (by rw [hacc5]; omega)
    obtain ⟨tv, hT⟩ : ∃ tv, (traceRun store0 ops).1.hgetS c.submission "total" = some tv := by
      rcases hx : (traceRun store0 ops).1.hgetS c.submission "total" with _ | v
      · rw [hx] at hrecf
        exact absurd hrecf (by simp)
      · exact ⟨v, rfl⟩
    have htv : tv = 0 := htzf c.submission tv hT
    have h25 : ¬ PER_THREAD ≤ tv := by
      rw [htv]
      decide
    rw [cdb_author (traceRun store0 ops).1 c true tv hmf hfa hT h25 hκf]

/-- C3 witness: `bob` admits and commits five comments on `s3` (all five
accepted, meeting the cap), and the commit check of a sixth fresh comment by
`bob` is rejected with `AuthorSaturated`. -/
theorem per_author_cap_witness :
    acceptedForRun store0 c3Trace "s3" "bob" ≤ 5 ∧
    (check_db (traceRun store0 c3Trace).1 c3Fresh true).1 =
      Decision.Reject Reason.AuthorSaturated :=
  ⟨per_author_cap.1 c3Trace "s3" "bob" (by decide) (by decide),
    per_author_cap.2 c3Trace c3Fresh (by decide) (by decide) (by decide) (by decide) (by decide)⟩

/- ----------------------------------------------------------------- -/
/- Renderer lemmas                                                    -/
/- ----------------------------------------------------------------- -/

lemma collectLoop_five (fmt : RowFields → String) (l : List SeasonEntry) (acc : List String) :
    collectLoop fmt l 5 acc = acc := by
  cases l with
  | nil => rfl
  | cons e rest => rfl

/-- The season loop collects exactly the formattable rows among the first
five qualifying entries of its input order. -/
lemma collectLoop_eq (fmt : RowFields → String) :
    ∀ (l : List SeasonEntry) (n : Nat) (acc : List String), n ≤ 5 →
      collectLoop fmt l n acc =
        acc ++ ((l.filter qualifiesNHL).take (5 - n)).filterMap (tryFormatRow fmt) := by
  intro l
  induction l with
  | nil =>
    intro n acc _
    simp [collectLoop]
  | cons e rest ih =>
    intro n acc hn
    by_cases h5 : n = 5
    · subst h5
      rw [collectLoop_five]
      simp
    · have hlt : n < 5 := lt_of_le_of_ne hn h5
      have hb : ¬ ((n == 5) = true) := by simp [h5]
      have htake : 5 - n = (5 - (n + 1)) + 1 := by omega
      cases hq : qualifiesNHL e with
      | false =>
        show (if (n == 5) = true then acc
          else if qualifiesNHL e = false then collectLoop fmt rest n acc
          else match tryFormatRow fmt e with
            | some r => collectLoop fmt rest (n + 1) (acc ++ [r])
            | none => collectLoop fmt rest (n + 1) acc) = _
        rw [if_neg hb, if_pos hq, ih n acc hn]
        simp [List.filter_cons, hq]
      | true =>
        show (if (n == 5) = true then acc
          else if qualifiesNHL e = false then collectLoop fmt rest n acc
          else match tryFormatRow fmt e with
            | some r => collectLoop fmt rest (n + 1) (acc ++ [r])
            | none => collectLoop fmt rest (n + 1) acc) = _
        rw [if_neg hb, if_neg (by simp [hq])]
        have hfilter : (e :: rest).filter qualifiesNHL = e :: rest.filter qualifiesNHL := by
          simp [List.filter_cons, hq]
        rw [hfilter, htake, List.take_succ_cons]
        cases hf : tryFormatRow fmt e with
        | some r =>
          simp only [List.filterMap_cons, hf]
          rw [ih (n + 1) (acc ++ [r]) (by omega)]
          simp
        | none =>
          simp only [List.filterMap_cons, hf]
          rw [ih (n + 1) acc (by omega)]

/- ----------------------------------------------------------------- -/
/- C7: season-row selection and the career row                        -/
/- ----------------------------------------------------------------- -/

/-- C7: when the career block is well-formed, `format_reply` is the hover
marker, the header, the collected rows in reverse (oldest-to-newest), and
exactly one career row appended last; the collected rows are the formattable
ones among the first 5 qualifying entries of the reversed (most-recent-first)
series, so at most 5 rows; and reversing them realigns them with the original
oldest-to-newest order of the filtered series. -/
theorem render_table (ss : List SeasonEntry) (cs : CareerStats) (hdr : String)
    (fmt : RowFields → String) (cr : String) (hc : careerRow fmt cs = some cr) :
    format_reply ss cs hdr fmt =
      hoverConst ++ hdr ++ String.join (collectLoop fmt ss.reverse 0 []).reverse ++ cr ∧
    (collectLoop fmt ss.reverse 0 []).length ≤ 5 ∧
    collectLoop fmt ss.reverse 0 [] =
      ((ss.reverse.filter qualifiesNHL).take 5).filterMap (tryFormatRow fmt) ∧
    (collectLoop fmt ss.reverse 0 []).reverse =
      ((((ss.filter qualifiesNHL).reverse.take 5).reverse).filterMap (tryFormatRow fmt)) := by
  have heq : collectLoop fmt ss.reverse 0 [] =
      ((ss.reverse.filter qualifiesNHL).take 5).filterMap (tryFormatRow fmt) := by
    simpa using collectLoop_eq fmt ss.reverse 0 [] (by omega)
  refine ⟨?_, ?_, heq, ?_⟩
  · rw [format_reply, hc]
  · rw [heq]
    calc (((ss.reverse.filter qualifiesNHL).take 5).filterMap (tryFormatRow fmt)).length
        ≤ ((ss.reverse.filter qualifiesNHL).take 5).length :=
          List.length_filterMap_le _ _
      _ ≤ 5 := by simpa using List.length_take_le 5 _
  · rw [heq, List.filter_reverse, ← List.filterMap_reverse]

/-- C7 witness: on ten season entries of which six are NHL entries, with a
well-formed career block, the rendered table keeps at most 5 season rows (the
filtered series has 6). -/
theorem render_table_witness :
    (collectLoop renderSkaterRecord ex10.reverse 0 []).length ≤ 5 ∧
    (ex10.filter qualifiesNHL).length = 6 :=
  ⟨(render_table ex10 exCareer skaterHeader renderSkaterRecord
      ((careerRow renderSkaterRecord exCareer).getD "") (by rfl)).2.1,
    by decide⟩

/- ----------------------------------------------------------------- -/
/- C10: failed rows consume collection slots                          -/
/- ----------------------------------------------------------------- -/

/-- C10: a qualifying entry whose row formatting raises (missing stat or team
block) still consumes one of the 5 slots — the counter is incremented with no
row appended — while non-qualifying entries consume no slot; consequently, on
six NHL entries whose most recent one lacks its stat block, the loop renders
only 4 rows even though 6 qualifying entries exist. -/
theorem slot_consumption :
    (∀ (fmt : RowFields → String) (e : SeasonEntry) (rest : List SeasonEntry)
        (n : Nat) (acc : List String), n < 5 → qualifiesNHL e = true →
        tryFormatRow fmt e = none →
        collectLoop fmt (e :: rest) n acc = collectLoop fmt rest (n + 1) acc) ∧
    (∀ (fmt : RowFields → String) (e : SeasonEntry) (rest : List SeasonEntry)
        (n : Nat) (acc : List String), qualifiesNHL e = false →
        collectLoop fmt (e :: rest) n acc = collectLoop fmt rest n acc) ∧
    ((collectLoop renderSkaterRecord ex6.reverse 0 []).length = 4 ∧
      (ex6.filter qualifiesNHL).length = 6) := by
  refine ⟨?_, ?_, by decide⟩
  · intro fmt e rest n acc hn hq hf
    show (if (n == 5) = true then acc
      else if qualifiesNHL e = false then collectLoop fmt rest n acc
      else match tryFormatRow fmt e with
        | some r => collectLoop fmt rest (n + 1) (acc ++ [r])
        | none => collectLoop fmt rest (n + 1) acc) = _
    rw [if_neg (by simp; omega), if_neg (by simp [hq]), hf]
  · intro fmt e rest n acc hq
    by_cases h5 : n = 5
    · subst h5
      rw [collectLoop_five, collectLoop_five]
    · show (if (n == 5) = true then acc
        else if qualifiesNHL e = false then collectLoop fmt rest n acc
        else match tryFormatRow fmt e with
          | some r => collectLoop fmt rest (n + 1) (acc ++ [r])
          | none => collectLoop fmt rest (n + 1) acc) = _
      rw [if_neg (by simp [h5]), if_pos hq]

/-- C10 witness: the broken most-recent NHL entry consumes a slot without
producing a row. -/
theorem slot_consumption_witness :
    collectLoop renderSkaterRecord (brokenNhlSeason "2015" :: nhlSeason "2014" :: []) 0 [] =
      collectLoop renderSkaterRecord (nhlSeason "2014" :: []) 1 [] :=
  slot_consumption.1 renderSkaterRecord (brokenNhlSeason "2015") (nhlSeason "2014" :: []) 0 []
    (by omega) (by decide) (by rfl)

/- ----------------------------------------------------------------- -/
/- C9: defaults for missing leaf fields                               -/
/- ----------------------------------------------------------------- -/

/-- C9 counterexample: a season entry whose team block lacks `abbreviation`
still renders (the row is produced), but the placeholder substituted is the
string `NHL` — not the single blank the claim asserts. -/
theorem missing_field_cex :
    tryFormatRow renderSkaterRecord eNoAbbr =
      some ("[NHL](http://x)|2019|5|7|12|0|50.0%|82    \n") ∧
    (rowFieldsOfSeason eNoAbbr tNoAbbr sb0).abbreviation = "NHL" ∧
    "NHL" ≠ " " := by
  refine ⟨by rfl, by rfl, by decide⟩

/-- C9 (amended): a missing stat leaf or season renders as the single blank
`" "`, and the row and reply still render; but the team fields default to
`"NHL"` and `"http://nhl.com"`, and a missing current-team name in the person
header renders as `"N/A"` (full name, position name and number do default to
the blank). -/
theorem missing_field_defaults :
    (∀ (e : SeasonEntry) (t : TeamRef) (s : StatBlock), s.goals = none →
      (rowFieldsOfSeason e t s).goals = " ") ∧
    (∀ (e : SeasonEntry) (t : TeamRef) (s : StatBlock), e.season = none →
      (rowFieldsOfSeason e t s).season = " ") ∧
    (∀ (e : SeasonEntry) (t : TeamRef) (s : StatBlock), t.abbreviation = none →
      (rowFieldsOfSeason e t s).abbreviation = "NHL") ∧
    (∀ (e : SeasonEntry) (t : TeamRef) (s : StatBlock), t.officialSiteUrl = none →
      (rowFieldsOfSeason e t s).officialSiteUrl = "http://nhl.com") ∧
    (∀ p : PersonRecord, p.positionName = none → p.currentTeamName = none →
      reply_person_line p =
        p.fullName.getD " " ++ " - " ++ " " ++ " - " ++
          p.primaryNumber.getD " " ++ " - " ++ "N/A" ++ "  \n") ∧
    (∀ (fmt : RowFields → String) (e : SeasonEntry),
      e.stat.isSome = true → e.team.isSome = true → (tryFormatRow fmt e).isSome = true) := by
  refine ⟨?_, ?_, ?_, ?_, ?_, ?_⟩
  · intro e t s h
    simp [rowFieldsOfSeason, blankStat, h]
  · intro e t s h
    simp [rowFieldsOfSeason, h]
  · intro e t s h
    simp [rowFieldsOfSeason, h]
  · intro e t s h
    simp [rowFieldsOfSeason, h]
  · intro p h1 h2
    rw [reply_person_line, h1, h2]
    rfl
  · intro fmt e hs ht
    rcases hx : e.stat with _ | s
    · rw [hx] at hs
      exact absurd hs (by simp)
    · rcases hy : e.team with _ | t
      · rw [hy] at ht
        exact absurd ht (by simp)
      · simp [tryFormatRow, hx, hy]

/-- C9 witness: a stat block with goals missing renders the blank. -/
theorem missing_field_defaults_witness :
    (rowFieldsOfSeason (nhlSeason "2019") t0
      ⟨none, some "7", some "12", some "0", some "50.0", some "82",
        some "0.91", some "2.5", some "3", some "30"⟩).goals = " " :=
  missing_field_defaults.1 (nhlSeason "2019") t0 _ rfl

/- ----------------------------------------------------------------- -/
/- C8: queue saturation                                               -/
/- ----------------------------------------------------------------- -/

lemma filter_comments_cons (st : Store) (q : List Comment) (c : Comment) (rest : List Comment) :
    filter_comments st q (c :: rest) =
      if (regex_summon c.body).isSome then
        match check_db st c false with
        | (Decision.Accept, st1) =>
          (match put_nowait q c with
           | none => ⟨st1, q, true⟩
           | some q1 => filter_comments st1 q1 rest)
        | (_, st1) => filter_comments st1 q rest
      else filter_comments st q rest := rfl

lemma fc_len_le (cs : List Comment) :
    ∀ (st : Store) (q : List Comment), q.length ≤ QUEUE_MAXSIZE →
      (filter_comments st q cs).queue.length ≤ QUEUE_MAXSIZE := by
  induction cs with
  | nil =>
    intro st q h
    exact h
  | cons c rest ih =>
    intro st q h
    rw [filter_comments_cons]
    by_cases hr : (regex_summon c.body).isSome
    · rw [if_pos hr]
      rcases hc : check_db st c false with ⟨d, st1⟩
      cases d with
      | Accept =>
        by_cases hfull : QUEUE_MAXSIZE ≤ q.length
        · have hp : put_nowait q c = none := by
            rw [put_nowait, if_pos hfull]
          rw [hp]
          exact h
        · have hp : put_nowait q c = some (q ++ [c]) := by
            rw [put_nowait, if_neg hfull]
          rw [hp]
          exact ih st1 (q ++ [c]) (by simp; omega)
      | Reject r =>
        exact ih st1 q h
    · rw [if_neg hr]
      exact ih st q h

lemma fc_full_keep (cs : List Comment) :
    ∀ (st : Store) (q : List Comment), q.length = QUEUE_MAXSIZE →
      (filter_comments st q cs).queue = q := by
  induction cs with
  | nil =>
    intro st q _
    rfl
  | cons c rest ih =>
    intro st q h
    rw [filter_comments_cons]
    by_cases hr : (regex_summon c.body).isSome
    · rw [if_pos hr]
      rcases hc : check_db st c false with ⟨d, st1⟩
      cases d with
      | Accept =>
        have hp : put_nowait q c = none := by
          rw [put_nowait, if_pos (le_of_eq h.symm)]
        rw [hp]
      | Reject r =>
        exact ih st1 q h
    · rw [if_neg hr]
      exact ih st q h

/-- C8 counterexample: with the queue at its capacity of 1024 and an eligible
candidate arriving, `put_nowait` raises: the exception escapes
`filter_comments` (there is no local handler), the candidate is dropped, and
the queue stays at 1024 — contradicting the claim that no exception escapes
into the driver loop. -/
theorem queue_full_cex :
    (filter_comments store0 qFull [eligC]).raised = true ∧
    (filter_comments store0 qFull [eligC]).queue = qFull ∧
    qFull.length = QUEUE_MAXSIZE := by
  have hlen : qFull.length = QUEUE_MAXSIZE := by
    show (List.replicate 1024 dummyC).length = QUEUE_MAXSIZE
    rw [List.length_replicate]
    rfl
  have hp : put_nowait qFull eligC = none := by
    rw [put_nowait, if_pos (le_of_eq hlen.symm)]
  have hr : (regex_summon eligC.body).isSome = true := by decide
  have hc : check_db store0 eligC false =
      (Decision.Accept, store0.hmsetS "s8" [("erin", 0), ("total", 0)]) := by
    decide
  rw [filter_comments_cons, if_pos hr, hc]
  simp only []
  rw [hp]
  exact ⟨rfl, rfl, hlen⟩

/-- C8 (amended): enqueueing never blocks (`put_nowait` returns immediately);
the queue never grows beyond 1024, and when it is full the arriving candidate
(and the rest of that scan) is dropped with the queue left exactly as it was;
the `QueueFull` raise propagates out of the admission filter into the driver
loop, whose per-cycle catch-all logs it and continues — `mainCycle` always
returns the state the scan left behind, so the process does not terminate. -/
theorem queue_full_behavior :
    (∀ (st : Store) (q cs : List Comment), q.length ≤ QUEUE_MAXSIZE →
      (filter_comments st q cs).queue.length ≤ QUEUE_MAXSIZE) ∧
    (∀ (st : Store) (q cs : List Comment), q.length = QUEUE_MAXSIZE →
      (filter_comments st q cs).queue = q) ∧
    (∀ (st : Store) (q cs : List Comment),
      mainCycle st q cs = ((filter_comments st q cs).store, (filter_comments st q cs).queue)) :=
  ⟨fun st q cs h => fc_len_le cs st q h,
    fun st q cs h => fc_full_keep cs st q h,
    fun _ _ _ => rfl⟩

/-- C8 witness: a full queue is left exactly full by a scan containing an
eligible candidate. -/
theorem queue_full_behavior_witness :
    (filter_comments store0 qFull [eligC, dummyC]).queue = qFull :=
  queue_full_behavior.2.1 store0 qFull [eligC, dummyC]
    (by show (List.replicate 1024 dummyC).length = QUEUE_MAXSIZE; rw [List.length_replicate]; rfl)

/- ----------------------------------------------------------------- -/
/- C6: parsing and identity lookup                                    -/
/- ----------------------------------------------------------------- -/

lemma find?_split {α : Type} (p : α → Bool) :
    ∀ (l : List α) (x : α), l.find? p = some x →
      ∃ pre post, l = pre ++ x :: post ∧ p x = true ∧ ∀ q ∈ pre, p q = false := by
  intro l
  induction l with
  | nil =>
    intro x h
    simp at h
  | cons a t ih =>
    intro x h
    cases hp : p a with
    | true =>
      rw [List.find?_cons_of_pos _ hp] at h
      have hax : a = x := by simpa using h
      subst hax
      exact ⟨[], t, rfl, hp, by simp⟩
    | false =>
      rw [List.find?_cons_of_neg _ (by simp [hp])] at h
      obtain ⟨pre, post, hsplit, hx, hpre⟩ := ih x h
      refine ⟨a :: pre, post, by rw [hsplit]; rfl, hx, ?_⟩
      intro q hq
      rcases List.mem_cons.mp hq with hEq | hmem
      · rw [hEq]
        exact hp
      · exact hpre q hmem

lemma find?_isSome_of_mem {α : Type} (p : α → Bool) :
    ∀ (l : List α), (∃ x ∈ l, p x = true) → (l.find? p).isSome = true := by
  intro l
  induction l with
  | nil =>
    intro h
    simp at h
  | cons a t ih =>
    intro h
    cases hp : p a with
    | true =>
      rw [List.find?_cons_of_pos _ hp]
      rfl
    | false =>
      rw [List.find?_cons_of_neg _ (by simp [hp])]
      obtain ⟨x, hx, hpx⟩ := h
      rcases List.mem_cons.mp hx with hEq | hmem
      · rw [hEq] at hpx
        rw [hpx] at hp
        exact absurd hp (by simp)
      · exact ih ⟨x, hmem, hpx⟩

/-- C6 counterexample: for `[[Rod Brind'Amour]]`, the suggestion-service URL
the code requests embeds the last-name token with its apostrophe retained
(`.../brind'amour/300`), which differs from the apostrophe-stripped query the
claim asserts (`.../brindamour/300`). -/
theorem lookup_query_cex :
    suggestQueryOfBody bodyBA = some (suggestPathFor lastBA) ∧
    suggestPathFor lastBA ≠ suggestPathFor (pyRemove lastBA aposS) := by
  constructor
  · rfl
  · decide

/-- C6 (amended): parsing `[[Rod Brind'Amour]]` yields first token `rod` and
last token `brind'amour` (apostrophe retained, periods and hyphens stripped);
the suggestion provider is queried with the last-name token verbatim
(apostrophe retained); the compound match key strips the apostrophe
(`rod-brindamour`); and the selection scans the returned suggestions in
order, the first one containing the key winning, with the subject id taken as
the text before the first bar. -/
theorem lookup_pipeline :
    (parseOfBody bodyBA = some ("rod", lastBA)) ∧
    (matchKey "rod" lastBA = "rod-brindamour") ∧
    (suggestQueryOfBody bodyBA = some (suggestBase ++ lastBA ++ "/300")) ∧
    (∀ (fn ln pid : String) (suggs : List String), get_player_ids fn ln suggs = some pid →
      ∃ pre pl post, suggs = pre ++ pl :: post ∧ containsSub (matchKey fn ln) pl = true ∧
        (∀ q ∈ pre, containsSub (matchKey fn ln) q = false) ∧
        pid = barHead pl) ∧
    (∀ (fn ln : String) (suggs : List String),
      (∃ pl ∈ suggs, containsSub (matchKey fn ln) pl = true) →
      (get_player_ids fn ln suggs).isSome = true) := by
  refine ⟨by decide, by decide, by decide, ?_, ?_⟩
  · intro fn ln pid suggs h
    rw [get_player_ids] at h
    rcases hf : suggs.find? (fun pl => containsSub (matchKey fn ln) pl) with _ | pl
    · rw [hf] at h
      simp at h
    · rw [hf] at h
      have hb : barHead pl = pid := by simpa using h
      obtain ⟨pre, post, hsplit, hp, hpre⟩ := find?_split _ suggs pl hf
      exact ⟨pre, pl, post, hsplit, hp, hpre, hb.symm⟩
  · intro fn ln suggs hex
    rw [get_player_ids]
    have hs := find?_isSome_of_mem (fun pl => containsSub (matchKey fn ln) pl) suggs hex
    rcases hf : suggs.find? (fun pl => containsSub (matchKey fn ln) pl) with _ | pl
    · rw [hf] at hs
      exact absurd hs (by simp)
    · simp [hf]

/-- C6 witness: selecting from a concrete suggestion list picks the first
matching entry and extracts its bar-prefixed id. -/
theorem lookup_pipeline_witness :
    ∃ pre pl post, (["x|a|y", "8462042|rod-brindamour|c"] : List String) = pre ++ pl :: post ∧
      containsSub (matchKey "rod" lastBA) pl = true ∧
      (∀ q ∈ pre, containsSub (matchKey "rod" lastBA) q = false) ∧
      "8462042" = barHead pl :=
  lookup_pipeline.2.2.2.1 "rod" lastBA "8462042" ["x|a|y", "8462042|rod-brindamour|c"] (by decide)

end StatsBot
